import Mathlib

/-!
# Verification of the CodeMateAI command terminal

Shallow embedding of the command-resolution and dispatch core of the
repository: the `PythonTerminal` class of `index.py` and the `WebTerminal`
class of `python_terminal_submission/streamlit_app.py`.

Python strings are embedded as `List Char` (`Str`).  The helpers below model
the Python string primitives the source uses: `str.split()` (split on
whitespace runs, dropping empties), `str.strip()` (trim whitespace at both
ends), `str.lower()` (ASCII lowercasing), the substring test `in`, and
`str.strip("\x22\x27")` (strip quote characters at both ends).
-/

/-- Python strings are modelled as lists of characters. -/
abbrev Str := List Char

/-- Literal embedding of a Lean string literal as a `Str`. -/
def strL (s : String) : Str := s.data

/-- Whitespace test used by `str.split()` / `str.strip()` (ASCII whitespace). -/
def isWs (c : Char) : Bool :=
  c == ' ' || c == '\t' || c == '\n' || c == '\r'

/-- The ASCII uppercase/lowercase letter pairs. -/
def upperTable : List (Char × Char) :=
  [('A','a'), ('B','b'), ('C','c'), ('D','d'), ('E','e'), ('F','f'), ('G','g'),
   ('H','h'), ('I','i'), ('J','j'), ('K','k'), ('L','l'), ('M','m'), ('N','n'),
   ('O','o'), ('P','p'), ('Q','q'), ('R','r'), ('S','s'), ('T','t'), ('U','u'),
   ('V','v'), ('W','w'), ('X','x'), ('Y','y'), ('Z','z')]

/-- ASCII lowercasing of one character, modelling `str.lower()`. -/
def lowerChar (c : Char) : Char :=
  match upperTable.find? (fun p => p.1 == c) with
  | some p => p.2
  | none => c

/-- Model of `str.lower()` on a whole string. -/
def lowerStr (s : Str) : Str := s.map lowerChar

/-- Accumulator-based splitter: `splitWAux cur l` processes `l` with the
(reversed) current word `cur`.  Models Python `str.split()` with no
arguments: split on runs of whitespace, drop empty pieces. -/
def splitWAux (cur : Str) : Str → List Str
  | [] => if cur = [] then [] else [cur.reverse]
  | c :: cs =>
    if isWs c then
      if cur = [] then splitWAux [] cs else cur.reverse :: splitWAux [] cs
    else splitWAux (c :: cur) cs

/-- Python `str.split()` (no separator argument). -/
def splitW (s : Str) : List Str := splitWAux [] s

/-- Python `str.strip()`: drop whitespace from both ends. -/
def trimL (s : Str) : Str := (s.dropWhile isWs).rdropWhile isWs

/-- Quote characters stripped by `str.strip("\x22\x27")` in the source. -/
def isQuoteChar (c : Char) : Bool := c == '"' || c == '\x27'

/-- Python `str.strip("\x22\x27")`: drop quote characters from both ends. -/
def stripQuotes (s : Str) : Str :=
  (s.dropWhile isQuoteChar).rdropWhile isQuoteChar

/-- Python substring test `needle in hay`. -/
def containsSub (needle hay : Str) : Bool := decide (needle <:+: hay)

/-- Python `" ".join(parts)`. -/
def joinSpace (parts : List Str) : Str := List.intercalate [' '] parts

/-- Python `"." in word`. -/
def hasDot (w : Str) : Bool := '.' ∈ w

/-- Python `word.startswith(".")`. -/
def startsWithDot (w : Str) : Bool :=
  match w with
  | [] => false
  | c :: _ => c == '.'


/-! ## WebTerminal (`python_terminal_submission/streamlit_app.py`) -/

namespace WebTerminal

/-- The `natural_indicators` list of `looks_like_natural_language`
(streamlit_app.py lines 57-64). -/
def natural_indicators : List Str :=
  [strL "how", strL "what", strL "where", strL "when", strL "why", strL "who", strL "which",
   strL "can you", strL "could you", strL "please", strL "i want", strL "i need",
   strL "i would", strL "i\x27d",
   strL "show me", strL "tell me", strL "give me", strL "help me", strL "find me",
   strL "create", strL "make", strL "build", strL "generate", strL "add",
   strL "remove", strL "delete",
   strL "count", strL "list", strL "display", strL "print", strL "open", strL "close",
   strL "files", strL "folders", strL "directories", strL "project", strL "items"]

/-- The `common_words` list of `looks_like_natural_language` (line 72). -/
def common_words : List Str :=
  [strL "the", strL "a", strL "an", strL "is", strL "are", strL "in", strL "on",
   strL "at", strL "to", strL "for", strL "of", strL "with"]

/-- Model of `WebTerminal.looks_like_natural_language` (lines 53-76): an indicator
substring of the lowered/stripped line, or more than two words with at least
one common function word. -/
def looks_like_natural_language (command : Str) : Bool :=
  let cmd_lower := trimL (lowerStr command)
  if natural_indicators.any (fun ind => containsSub ind cmd_lower) then true
  else
    let words := splitW cmd_lower
    decide (words.length > 2) && words.any (fun w => decide (w ∈ common_words))

/-- Deletion-rule folder-name loop (lines 176-183): scan the lowered words,
returning the quote-stripped original word after `named`/`called`, or after
`folder`/`directory` when that word is not itself `named`/`called`. -/
def delFolderLoop (orig : List Str) : Nat → List Str → Option Str
  | _, [] => none
  | i, w :: ws =>
    if (w = strL "named" ∨ w = strL "called") ∧ i + 1 < orig.length then
      some (stripQuotes (orig.getD (i + 1) []))
    else if (w = strL "folder" ∨ w = strL "directory") ∧ i + 1 < orig.length then
      let next := stripQuotes (orig.getD (i + 1) [])
      if next ≠ strL "named" ∧ next ≠ strL "called" then some next
      else delFolderLoop orig (i + 1) ws
    else delFolderLoop orig (i + 1) ws

/-- Stop words of the filename-first deletion loop (line 188). -/
def delDotStop : List Str :=
  [strL "delete", strL "remove", strL "del", strL "file", strL "the"]

/-- Deletion-rule filename loop (lines 187-189): first original word that
contains a dot, does not start with one, and is not a stop word. -/
def delDotFind (orig : List Str) : Option Str :=
  (orig.find? (fun w =>
    hasDot w && !startsWithDot w && decide (lowerStr w ∉ delDotStop))).map stripQuotes

/-- Deletion-rule keyword loop (lines 192-199): word after `named`/`called`,
or after `file` when not itself `named`/`called`. -/
def delFileKeyLoop (orig : List Str) : Nat → List Str → Option Str
  | _, [] => none
  | i, w :: ws =>
    if (w = strL "named" ∨ w = strL "called") ∧ i + 1 < orig.length then
      some (stripQuotes (orig.getD (i + 1) []))
    else if w = strL "file" ∧ i + 1 < orig.length then
      let next := stripQuotes (orig.getD (i + 1) [])
      if next ≠ strL "named" ∧ next ≠ strL "called" then some next
      else delFileKeyLoop orig (i + 1) ws
    else delFileKeyLoop orig (i + 1) ws

/-- Stop words of the deletion-verb loop (line 206). -/
def delVerbStop : List Str :=
  [strL "the", strL "a", strL "an", strL "file", strL "named", strL "called"]

/-- Deletion-verb loop (lines 202-207): word after `delete`/`remove`/`del`
that is not a stop word. -/
def delVerbLoop (orig : List Str) : Nat → List Str → Option Str
  | _, [] => none
  | i, w :: ws =>
    if (w = strL "delete" ∨ w = strL "remove" ∨ w = strL "del") ∧ i + 1 < orig.length then
      let next := stripQuotes (orig.getD (i + 1) [])
      if next ∉ delVerbStop then some next
      else delVerbLoop orig (i + 1) ws
    else delVerbLoop orig (i + 1) ws

/-- The deletion rule (lines 173-209); always produces a command. -/
def deletionResult (cmd_lower : Str) (orig words : List Str) : Str :=
  if containsSub (strL "folder") cmd_lower || containsSub (strL "directory") cmd_lower then
    match delFolderLoop orig 0 words with
    | some t => strL "rmdir " ++ t
    | none => strL "rmdir temp"
  else
    match delDotFind orig with
    | some t => strL "rm " ++ t
    | none =>
      match delFileKeyLoop orig 0 words with
      | some t => strL "rm " ++ t
      | none =>
        match delVerbLoop orig 0 words with
        | some t => strL "rm " ++ t
        | none => strL "rm temp.txt"

/-- Creation-rule filename loop (lines 217-223). -/
def createFileLoop (orig : List Str) : Nat → List Str → Option Str
  | _, [] => none
  | i, w :: ws =>
    if (w = strL "named" ∨ w = strL "called") ∧ i + 1 < orig.length then
      some (stripQuotes (orig.getD (i + 1) []))
    else if w = strL "file" ∧ i + 1 < orig.length ∧
        lowerStr (orig.getD (i + 1) []) ∉ [strL "named", strL "called"] then
      some (stripQuotes (orig.getD (i + 1) []))
    else createFileLoop orig (i + 1) ws

/-- Filename-like-word loop without stop words (lines 227-230 and 277-280). -/
def dotFind (orig : List Str) : Option Str :=
  (orig.find? (fun w => hasDot w && !startsWithDot w)).map stripQuotes

/-- Extension defaulting, keyed by language keywords (lines 233-245). -/
def addExtension (cmd_lower fn : Str) : Str :=
  if hasDot fn then fn
  else if containsSub (strL "python") cmd_lower then fn ++ strL ".py"
  else if containsSub (strL "txt") cmd_lower || containsSub (strL "text") cmd_lower then
    fn ++ strL ".txt"
  else if containsSub (strL "html") cmd_lower then fn ++ strL ".html"
  else if containsSub (strL "css") cmd_lower then fn ++ strL ".css"
  else if containsSub (strL "js") cmd_lower || containsSub (strL "javascript") cmd_lower then
    fn ++ strL ".js"
  else fn ++ strL ".txt"

/-- Creation-rule folder-name loop (lines 252-260). -/
def createFolderLoop (orig : List Str) : Nat → List Str → Option Str
  | _, [] => none
  | i, w :: ws =>
    if (w = strL "named" ∨ w = strL "called") ∧ i + 1 < orig.length then
      some (stripQuotes (orig.getD (i + 1) []))
    else if (w = strL "folder" ∨ w = strL "directory") ∧ i + 1 < orig.length then
      let next := stripQuotes (orig.getD (i + 1) [])
      if lowerStr next ∉ [strL "named", strL "called"] then some next
      else createFolderLoop orig (i + 1) ws
    else createFolderLoop orig (i + 1) ws

/-- Filename search of the creation rule (lines 217-230): the keyword loop,
replaced by the dotted-word loop when it finds nothing or an empty name
(Python `if not filename`). -/
def fileNameSearch (orig words : List Str) : Option Str :=
  match createFileLoop orig 0 words with
  | some t => if t = [] then dotFind orig else some t
  | none => dotFind orig

/-- The creation rule (lines 212-262).  Returns `none` when the line mentions
`create`/`make` but neither `file` nor `folder`/`directory` (Python then
falls through to the next rule). -/
def creationResult (cmd_lower : Str) (orig words : List Str) : Option Str :=
  if containsSub (strL "file") cmd_lower then
    some (match fileNameSearch orig words with
      | some fn =>
        if fn ≠ [] then strL "touch " ++ addExtension cmd_lower fn
        else strL "touch newfile.txt"
      | none => strL "touch newfile.txt")
  else if containsSub (strL "folder") cmd_lower || containsSub (strL "directory") cmd_lower then
    some (match createFolderLoop orig 0 words with
      | some d => if d ≠ [] then strL "mkdir " ++ d else strL "mkdir newfolder"
      | none => strL "mkdir newfolder")
  else none

/-- Write-rule filename loop (lines 270-273): original word after the first
`to`/`in` (case-insensitively). -/
def writeToInFind (orig : List Str) : Nat → List Str → Option Str
  | _, [] => none
  | i, w :: ws =>
    if lowerStr w ∈ [strL "to", strL "in"] ∧ i + 1 < orig.length then
      some (stripQuotes (orig.getD (i + 1) []))
    else writeToInFind orig (i + 1) ws

/-- Write-rule content collection (lines 284-293): the words strictly between
`write` and the first `to`/`in`. -/
def collectContent : Bool → List Str → List Str
  | _, [] => []
  | col, w :: ws =>
    if lowerStr w = strL "write" then collectContent true ws
    else if lowerStr w ∈ [strL "to", strL "in"] then []
    else if col then w :: collectContent col ws
    else collectContent col ws

/-- Filename search of the write rule (lines 269-280): the word after
`to`/`in`, replaced by the dotted-word loop when absent or empty. -/
def writeNameSearch (orig : List Str) : Option Str :=
  match writeToInFind orig 0 orig with
  | some t => if t = [] then dotFind orig else some t
  | none => dotFind orig

/-- The write rule (lines 265-296).  `none` means Python falls through. -/
def writeResult (orig : List Str) : Option Str :=
  match writeNameSearch orig with
  | some fn =>
    if fn ≠ [] then
      some (if stripQuotes (joinSpace (collectContent false orig)) ≠ [] then
              strL "echo " ++ stripQuotes (joinSpace (collectContent false orig)) ++
                strL " > " ++ fn
            else strL "touch " ++ fn)
    else none
  | none => none

/-- The two-word direct-imperative rule (lines 155-166). -/
def directTwoWord (orig : List Str) : Option Str :=
  match orig with
  | [a, t] =>
    let action := lowerStr a
    if action ∈ [strL "delete", strL "remove", strL "del"] then some (strL "rm " ++ t)
    else if action ∈ [strL "create", strL "make"] then some (strL "touch " ++ t)
    else if action = strL "mkdir" then some (strL "mkdir " ++ t)
    else if action = strL "rmdir" then some (strL "rmdir " ++ t)
    else none
  | _ => none

/-- The counting trigger phrases (line 169). -/
def countTrigger (cmd_lower : Str) : Bool :=
  [strL "count", strL "how many", strL "number of files",
   strL "files count"].any (fun p => containsSub p cmd_lower)

/-- The deletion trigger phrases (line 173). -/
def deleteTrigger (cmd_lower : Str) : Bool :=
  [strL "delete", strL "remove", strL "del"].any (fun p => containsSub p cmd_lower)

/-- The creation rule guarded by its trigger (line 212). -/
def creationGate (cmd_lower : Str) (orig words : List Str) : Option Str :=
  if containsSub (strL "create") cmd_lower || containsSub (strL "make") cmd_lower then
    creationResult cmd_lower orig words
  else none

/-- The write rule guarded by its trigger (line 265). -/
def writeGate (cmd_lower : Str) (orig : List Str) : Option Str :=
  if containsSub (strL "write") cmd_lower &&
      (containsSub (strL "to") cmd_lower || containsSub (strL "in") cmd_lower) then
    writeResult orig
  else none

/-- The two listing rules (lines 299-304). -/
def listingResult (cmd_lower : Str) : Option Str :=
  if [strL "show", strL "list", strL "what files", strL "see files",
      strL "display files"].any (fun p => containsSub p cmd_lower) then
    some (strL "ls")
  else if [strL "what\x27s here", strL "what is here",
      strL "contents"].any (fun p => containsSub p cmd_lower) then
    some (strL "ls")
  else none

/-- Model of `WebTerminal.parse_with_fallback_patterns` (lines 149-306): the ordered
deterministic rule table. -/
def parse_with_fallback_patterns (command : Str) : Option Str :=
  let cmd_lower := trimL (lowerStr command)
  let orig := splitW command
  let words := splitW cmd_lower
  match directTwoWord orig with
  | some r => some r
  | none =>
    if countTrigger cmd_lower then some (strL "count")
    else if deleteTrigger cmd_lower then some (deletionResult cmd_lower orig words)
    else
      match creationGate cmd_lower orig words with
      | some r => some r
      | none =>
        match writeGate cmd_lower orig with
        | some r => some r
        | none => listingResult cmd_lower


end WebTerminal

namespace WebTerminal

/-- Where `WebTerminal.execute_command` (lines 308-367) sends a line:
short-circuit on blank input, a built-in branch of the `if`/`elif` chain,
the natural-language path, or the system-command fallback. -/
inductive Route where
  | noop : Route
  | builtin (name : Str) : Route
  | natural : Route
  | system : Route
deriving DecidableEq, Repr

/-- The command names accepted by the built-in `if`/`elif` chain of
`execute_command` (lines 322-355). -/
def registeredNames : List Str :=
  [strL "help", strL "pwd", strL "ls", strL "dir", strL "count", strL "mkdir",
   strL "touch", strL "cat", strL "rm", strL "del", strL "rmdir", strL "echo",
   strL "edit", strL "clear", strL "history", strL "ai"]

/-- The `if`/`elif` chain of `WebTerminal.execute_command` (lines 318-367):
`command = args[0]` is compared (case-sensitively) against each built-in,
some requiring at least one argument; otherwise the line goes to
natural-language processing when `looks_like_natural_language` holds, and to
the system-command fallback when it does not. -/
def routeOfArgs (line : Str) (args : List Str) : Route :=
  let command := args.headD []
  if command = strL "help" then .builtin command
    else if command = strL "pwd" then .builtin command
    else if command = strL "ls" ∨ command = strL "dir" then .builtin command
    else if command = strL "count" then .builtin command
    else if command = strL "mkdir" ∧ args.length > 1 then .builtin command
    else if command = strL "touch" ∧ args.length > 1 then .builtin command
    else if command = strL "cat" ∧ args.length > 1 then .builtin command
    else if (command = strL "rm" ∨ command = strL "del") ∧ args.length > 1 then .builtin command
    else if command = strL "rmdir" ∧ args.length > 1 then .builtin command
    else if command = strL "echo" then .builtin command
    else if command = strL "edit" ∧ args.length > 1 then .builtin command
    else if command = strL "clear" then .builtin command
    else if command = strL "history" then .builtin command
    else if command = strL "ai" then .builtin command
    else if looks_like_natural_language line then .natural
    else .system

/-- Routing of `WebTerminal.execute_command` (lines 308-367): blank input
short-circuits, then the line is split and routed on its first token. -/
def execute_command_route (line : Str) : Route :=
  if trimL line = [] then .noop
  else routeOfArgs line (splitW line)

/-- History append of `WebTerminal.execute_command` (line 315):
`st.session_state.command_history.append(command_line)` with no bound. -/
def appendHistory (h : List Str) (c : Str) : List Str := h ++ [c]

/-- Resolver-relevant state of a `WebTerminal` session: whether the Gemini
key and the `requests` module are available (`gemini_api_key`/`HAS_REQUESTS`,
fixed at startup) and the mutable `ai_enabled` flag. -/
structure AIState where
  gemini_ok : Bool
  ai_enabled : Bool
deriving DecidableEq, Repr

/-- Outcome of one HTTP request made by `call_gemini_api` (lines 119-147):
a 200 response carrying candidate text, a 200 response without usable
candidates, a non-200 response, or a raised exception (timeout or transport
error). -/
inductive ApiOutcome where
  | success (text : Str) : ApiOutcome
  | malformed : ApiOutcome
  | httpError : ApiOutcome
  | exception : ApiOutcome
deriving DecidableEq, Repr

/-- Model of `WebTerminal.call_gemini_api` (lines 119-147): guard on key/requests,
return the stripped candidate text on a 200 response, set
`ai_enabled = False` on a non-200 status, and merely return `None` (state
untouched) when an exception is raised. -/
def call_gemini_api (s : AIState) (o : ApiOutcome) : AIState × Option Str :=
  if ¬ s.gemini_ok then (s, none)
  else
    match o with
    | .success text => (s, some (trimL text))
    | .malformed => (s, none)
    | .httpError => ({ s with ai_enabled := false }, none)
    | .exception => (s, none)

/-- Model of `WebTerminal.parse_with_gemini` (lines 85-117): call the API and return
the stripped result when it is non-empty. -/
def parse_with_gemini (s : AIState) (o : ApiOutcome) : AIState × Option Str :=
  let (s', result) := call_gemini_api s o
  match result with
  | some r => if r ≠ [] ∧ trimL r ≠ [] then (s', some (trimL r)) else (s', none)
  | none => (s', none)

/-- The strategy choice of `WebTerminal.parse_natural_language` (lines
78-84): Gemini when `ai_enabled`, fallback patterns otherwise. -/
inductive Strategy where
  | remote : Strategy
  | deterministic : Strategy
deriving DecidableEq, Repr

/-- Which strategy `parse_natural_language` uses in state `s`. -/
def strategyUsed (s : AIState) : Strategy :=
  if s.ai_enabled then .remote else .deterministic

/-- Model of `WebTerminal.parse_natural_language` (lines 78-84): the remote outcome
`o` only matters on the Gemini path. -/
def parse_natural_language (s : AIState) (line : Str) (o : ApiOutcome) :
    AIState × Option Str :=
  if s.ai_enabled then parse_with_gemini s o
  else (s, parse_with_fallback_patterns line)

/-- The `AIState` after a sequence of Gemini calls. -/
def runCalls (s : AIState) (os : List ApiOutcome) : AIState :=
  os.foldl (fun s o => (call_gemini_api s o).1) s

/-- An entry of the session working directory: a file with its content, or a
directory with the list of names it contains. -/
inductive Entry where
  | file (content : Str) : Entry
  | dir (entries : List Str) : Entry
deriving DecidableEq, Repr

/-- The working directory of a `WebTerminal` session, as an association list
from names to entries (all commands join names onto `current_directory`). -/
abbrev WebFS := List (Str × Entry)

/-- Look up a name in the working directory (first binding wins). -/
def lookupFS (fs : WebFS) (n : Str) : Option Entry :=
  match fs with
  | [] => none
  | e :: es => if e.1 = n then some e.2 else lookupFS es n

/-- Write `content` to file `n` (create or truncate), as `open(path, "w")`
followed by `write` does. -/
def writeFS (fs : WebFS) (n : Str) (content : Str) : WebFS :=
  match fs with
  | [] => [(n, .file content)]
  | e :: es => if e.1 = n then (n, .file content) :: es else e :: writeFS es n content

/-- Remove the entry named `n`. -/
def removeFS (fs : WebFS) (n : Str) : WebFS :=
  match fs with
  | [] => []
  | e :: es => if e.1 = n then es else e :: removeFS es n

/-- Result of `cmd_echo` (lines 490-507). -/
inductive EchoResult where
  | text (t : Str) : EchoResult
  | written (name : Str) : EchoResult
  | error (name : Str) : EchoResult
deriving DecidableEq, Repr

/-- Model of `WebTerminal.cmd_echo` (lines 490-507): with fewer than three arguments
or no `>` token, just echo the joined arguments; otherwise write the words
before the first `>` to the file named right after it (default
`output.txt`), failing if that name is a directory. -/
def cmd_echo (fs : WebFS) (args : List Str) : WebFS × EchoResult :=
  if args.length < 3 ∨ strL ">" ∉ args then (fs, .text (joinSpace args))
  else
    let redirect_index := args.indexOf (strL ">")
    let content := joinSpace (args.take redirect_index)
    let filename := args.getD (redirect_index + 1) (strL "output.txt")
    match lookupFS fs filename with
    | some (.dir _) => (fs, .error filename)
    | _ => (writeFS fs filename content, .written filename)

/-- Per-file result of `cmd_cat` (lines 475-488). -/
inductive CatResult where
  | found (content : Str) : CatResult
  | notFound (name : Str) : CatResult
  | error (name : Str) : CatResult
deriving DecidableEq, Repr

/-- Model of `WebTerminal.cmd_cat` (lines 475-488): read each named file; a missing
file reports not-found, a directory raises and reports a generic error. -/
def cmd_cat (fs : WebFS) (args : List Str) : List CatResult :=
  args.map (fun n =>
    match lookupFS fs n with
    | some (.file c) => .found c
    | some (.dir _) => .error n
    | none => .notFound n)

/-- Per-directory result of `cmd_mkdir` (lines 450-460). -/
inductive MkdirResult where
  | created (name : Str) : MkdirResult
  | error (name : Str) : MkdirResult
deriving DecidableEq, Repr

/-- One step of `cmd_mkdir` (lines 453-459): `os.makedirs(path,
exist_ok=True)` succeeds when the name is absent or already a directory and
raises `FileExistsError` when a file occupies the name. -/
def mkdirOne (fs : WebFS) (n : Str) : WebFS × MkdirResult :=
  match lookupFS fs n with
  | none => (fs ++ [(n, .dir [])], .created n)
  | some (.dir _) => (fs, .created n)
  | some (.file _) => (fs, .error n)

/-- Model of `WebTerminal.cmd_mkdir` (lines 450-460): process every argument,
reporting one result per name. -/
def cmd_mkdir (fs : WebFS) (args : List Str) : WebFS × List MkdirResult :=
  match args with
  | [] => (fs, [])
  | n :: ns =>
    let (fs', r) := mkdirOne fs n
    let (fs'', rs) := cmd_mkdir fs' ns
    (fs'', r :: rs)

/-- Per-directory result of `cmd_rmdir` (lines 542-559). -/
inductive RmdirResult where
  | removed (name : Str) : RmdirResult
  | notEmpty (name : Str) : RmdirResult
  | notFound (name : Str) : RmdirResult
deriving DecidableEq, Repr

/-- One step of `cmd_rmdir` (lines 545-558): only an existing empty
directory is removed; a non-empty one reports not-empty and is left intact;
anything else reports not-found. -/
def rmdirOne (fs : WebFS) (n : Str) : WebFS × RmdirResult :=
  match lookupFS fs n with
  | some (.dir entries) =>
    if entries ≠ [] then (fs, .notEmpty n)
    else (removeFS fs n, .removed n)
  | _ => (fs, .notFound n)

/-- Model of `WebTerminal.cmd_rmdir` (lines 542-559). -/
def cmd_rmdir (fs : WebFS) (args : List Str) : WebFS × List RmdirResult :=
  match args with
  | [] => (fs, [])
  | n :: ns =>
    let (fs', r) := rmdirOne fs n
    let (fs'', rs) := cmd_rmdir fs' ns
    (fs'', r :: rs)

/-- Per-file result of `cmd_rm` (lines 525-540). -/
inductive RmResult where
  | removed (name : Str) : RmResult
  | isDirectory (name : Str) : RmResult
  | notFound (name : Str) : RmResult
deriving DecidableEq, Repr

/-- One step of `cmd_rm` (lines 528-539): remove a file; refuse a directory
with a distinct cannot-remove-directory message; report file-not-found
otherwise. -/
def rmOne (fs : WebFS) (n : Str) : WebFS × RmResult :=
  match lookupFS fs n with
  | some (.file _) => (removeFS fs n, .removed n)
  | some (.dir _) => (fs, .isDirectory n)
  | none => (fs, .notFound n)

/-- Model of `WebTerminal.cmd_rm` (lines 525-540). -/
def cmd_rm (fs : WebFS) (args : List Str) : WebFS × List RmResult :=
  match args with
  | [] => (fs, [])
  | n :: ns =>
    let (fs', r) := rmOne fs n
    let (fs'', rs) := cmd_rm fs' ns
    (fs'', r :: rs)

end WebTerminal

/-! ## PythonTerminal (`index.py`) -/

namespace PythonTerminal

/-- The pieces of the host filesystem and `os.path` that `cmd_cd` consults.
Paths are plain strings; the resolution helpers (`expanduser`, `isabs`,
`join`, `abspath`) and the existence/directory tests are abstract, as they
live outside the repository. -/
structure OSModel where
  home : String
  isabs : String → Bool
  join : String → String → String
  abspath : String → String
  pathExists : String → Bool
  isdir : String → Bool

/-- The session state touched by `cmd_cd`: `current_directory` and the
lazily created `prev_directory` attribute. -/
structure Session where
  current_directory : String
  prev_directory : Option String
deriving DecidableEq, Repr

/-- Result message printed by `cmd_cd` (index.py lines 236-238). -/
inductive CdResult where
  | changed (path : String) : CdResult
  | noSuchDirectory (path : String) : CdResult
deriving DecidableEq, Repr

/-- Path resolution of `PythonTerminal.cmd_cd` (lines 221-230): `~` to home,
`-` to the recorded previous directory (or the current one when none), a
relative path joined onto `current_directory`, then `os.path.abspath`. -/
def resolveCd (os : OSModel) (s : Session) (path : String) : String :=
  let p :=
    if path = "~" then os.home
    else if path = "-" then s.prev_directory.getD s.current_directory
    else if ¬ os.isabs path then os.join s.current_directory path
    else path
  os.abspath p

/-- Model of `PythonTerminal.cmd_cd` (lines 219-240): commit the new directory and
record the previous one only after the resolved absolute path is confirmed
to exist and be a directory. -/
def cmd_cd (os : OSModel) (s : Session) (path : String) : Session × CdResult :=
  let p := resolveCd os s path
  if os.pathExists p ∧ os.isdir p then
    ({ current_directory := p, prev_directory := some s.current_directory }, .changed p)
  else (s, .noSuchDirectory p)

/-- History append of `PythonTerminal.execute_command` (lines 104-107):
append, then `pop(0)` once the length exceeds 100. -/
def appendHistory (h : List Str) (c : Str) : List Str :=
  let h' := h ++ [c]
  if h'.length > 100 then h'.tail else h'

/-- Per-file result of `cmd_rm` (index.py lines 268-282). -/
inductive RmResult where
  | removed (name : Str) : RmResult
  | noSuchFile (name : Str) : RmResult
deriving DecidableEq, Repr

/-- One step of `PythonTerminal.cmd_rm` (lines 274-282): `os.path.isfile`
gates the removal; an absent name and a directory name both fall to the same
`No such file` message.  The working directory is modelled like the web
terminal's. -/
def rmOne (fs : WebTerminal.WebFS) (n : Str) : WebTerminal.WebFS × RmResult :=
  match WebTerminal.lookupFS fs n with
  | some (.file _) => (WebTerminal.removeFS fs n, .removed n)
  | _ => (fs, .noSuchFile n)

/-- Model of `PythonTerminal.cmd_rm` (lines 268-282): one result per target, no
abort. -/
def cmd_rm (fs : WebTerminal.WebFS) (args : List Str) :
    WebTerminal.WebFS × List RmResult :=
  match args with
  | [] => (fs, [])
  | n :: ns =>
    let (fs', r) := rmOne fs n
    let (fs'', rs) := cmd_rm fs' ns
    (fs'', r :: rs)

end PythonTerminal

/-! ## Auxiliary predicates used in the statements -/

/-- No character of `t` is whitespace. -/
abbrev noWsStr (t : Str) : Prop := ∀ c ∈ t, isWs c = false

/-- The command names the deterministic fallback resolver can emit as first
token. -/
def fallbackHeads : List Str :=
  [strL "rm", strL "touch", strL "mkdir", strL "rmdir", strL "count",
   strL "ls", strL "echo"]

namespace WebTerminal

/-- Structural characterisation of every string the fallback resolver can
return: one of the seven command words, alone or followed by a target. -/
def FallbackShape (r : Str) : Prop :=
  (∃ t, r = strL "rm " ++ t ∧ noWsStr t) ∨
  (∃ t, r = strL "touch " ++ t ∧ noWsStr t ∧ t ≠ []) ∨
  (∃ t, r = strL "mkdir " ++ t ∧ noWsStr t ∧ t ≠ []) ∨
  (∃ t, r = strL "rmdir " ++ t ∧ noWsStr t) ∨
  r = strL "count" ∨ r = strL "ls" ∨
  (∃ rest, r = strL "echo " ++ rest)

end WebTerminal

/-! ## Lemmas about the string primitives -/

theorem isWs_lowerChar (c : Char) : isWs (lowerChar c) = isWs c := by
  unfold lowerChar
  cases h : upperTable.find? (fun p => p.1 == c) with
  | none => rfl
  | some p =>
    have hm : p ∈ upperTable := List.mem_of_find?_eq_some h
    have hpc : p.1 = c := by simpa using List.find?_some h
    have h26 : ∀ q ∈ upperTable, isWs q.2 = isWs q.1 := by decide
    rw [h26 p hm, hpc]

theorem splitWAux_ne_nil (l : Str) : ∀ cur : Str, cur ≠ [] → splitWAux cur l ≠ [] := by
  induction l with
  | nil => intro cur h; simp [splitWAux, h]
  | cons c cs ih =>
    intro cur h
    by_cases hw : isWs c
    · simp [splitWAux, hw, h]
    · simp only [splitWAux, hw, if_false, Bool.false_eq_true]
      exact ih (c :: cur) (by simp)

theorem splitWAux_eq_nil_iff (l : Str) :
    splitWAux [] l = [] ↔ ∀ c ∈ l, isWs c = true := by
  induction l with
  | nil => simp [splitWAux]
  | cons c cs ih =>
    by_cases hw : isWs c
    · simp [splitWAux, hw, ih]
    · have hne := splitWAux_ne_nil cs [c] (by simp)
      simp [splitWAux, hw, hne]

theorem trimL_eq_nil_iff (l : Str) : trimL l = [] ↔ ∀ c ∈ l, isWs c = true := by
  induction l with
  | nil => simp [trimL]
  | cons c cs ih =>
    by_cases hw : isWs c
    · simpa [trimL, List.dropWhile_cons, hw] using ih
    · simp [trimL, List.dropWhile_cons, hw, List.rdropWhile_eq_nil_iff]

theorem splitWAux_mem_ne_nil (l : Str) : ∀ cur w, w ∈ splitWAux cur l → w ≠ [] := by
  induction l with
  | nil =>
    intro cur w hw
    by_cases h : cur = []
    · simp [splitWAux, h] at hw
    · simp [splitWAux, h] at hw; subst hw; simp [h]
  | cons c cs ih =>
    intro cur w hw
    by_cases hws : isWs c
    · by_cases h : cur = []
      · simp only [splitWAux, hws, if_true, h, if_pos] at hw
        exact ih [] w hw
      · simp only [splitWAux, hws, if_true, h, if_false, List.mem_cons] at hw
        rcases hw with rfl | hw
        · simp [h]
        · exact ih [] w hw
    · simp only [splitWAux, hws, if_false, Bool.false_eq_true] at hw
      exact ih (c :: cur) w hw

theorem splitWAux_mem_noWs (l : Str) :
    ∀ cur, (∀ c ∈ cur, isWs c = false) →
      ∀ w ∈ splitWAux cur l, ∀ c ∈ w, isWs c = false := by
  induction l with
  | nil =>
    intro cur hcur w hw
    by_cases h : cur = []
    · simp [splitWAux, h] at hw
    · simp [splitWAux, h] at hw
      subst hw
      intro c hc
      exact hcur c (by simpa using hc)
  | cons c cs ih =>
    intro cur hcur w hw
    by_cases hws : isWs c
    · by_cases h : cur = []
      · simp only [splitWAux, hws, if_true, h, if_pos] at hw
        exact ih [] (by simp) w hw
      · simp only [splitWAux, hws, if_true, h, if_false, List.mem_cons] at hw
        rcases hw with rfl | hw
        · intro x hx; exact hcur x (by simpa using hx)
        · exact ih [] (by simp) w hw
    · simp only [splitWAux, hws, if_false, Bool.false_eq_true] at hw
      refine ih (c :: cur) ?_ w hw
      intro x hx
      rcases List.mem_cons.mp hx with rfl | hx
      · simpa using hws
      · exact hcur x hx

theorem splitWAux_append_word (w : Str) :
    ∀ (cur t : Str), (∀ c ∈ w, isWs c = false) → cur.reverse ++ w ≠ [] →
      splitWAux cur (w ++ ' ' :: t) = (cur.reverse ++ w) :: splitWAux [] t := by
  induction w with
  | nil =>
    intro cur t _ hne
    have hc : cur ≠ [] := by simpa using hne
    simp [splitWAux, hc, isWs]
  | cons a w' ih =>
    intro cur t hnw hne
    have ha : isWs a = false := hnw a (by simp)
    show splitWAux cur (a :: (w' ++ ' ' :: t)) = _
    simp only [splitWAux, ha, Bool.false_eq_true, if_false]
    rw [ih (a :: cur) t (fun c hc => hnw c (by simp [hc])) (by simp)]
    simp

theorem splitWAux_noWs_single (t : Str) :
    ∀ cur, (∀ c ∈ t, isWs c = false) → cur.reverse ++ t ≠ [] →
      splitWAux cur t = [cur.reverse ++ t] := by
  induction t with
  | nil =>
    intro cur _ hne
    have hc : cur ≠ [] := by simpa using hne
    simp [splitWAux, hc]
  | cons a t' ih =>
    intro cur hnw hne
    have ha : isWs a = false := hnw a (by simp)
    simp only [splitWAux, ha, Bool.false_eq_true, if_false]
    rw [ih (a :: cur) (fun c hc => hnw c (by simp [hc])) (by simp)]
    simp

theorem dropWhile_append_all {p : Char → Bool} (a b : Str)
    (h : ∀ x ∈ a, p x = true) : List.dropWhile p (a ++ b) = List.dropWhile p b := by
  induction a with
  | nil => rfl
  | cons c a' ih =>
    simp only [List.cons_append, List.dropWhile_cons, h c (by simp), if_true]
    exact ih (fun x hx => h x (by simp [hx]))

theorem rdropWhile_append_all {p : Char → Bool} (a b : Str)
    (h : ∀ x ∈ b, p x = true) : List.rdropWhile p (a ++ b) = List.rdropWhile p a := by
  rw [List.rdropWhile, List.rdropWhile, List.reverse_append,
    dropWhile_append_all _ _ (by simpa using h)]

theorem rdropWhile_noWs (cur : Str) (h : ∀ c ∈ cur, isWs c = false) :
    List.rdropWhile isWs cur.reverse = cur.reverse := by
  rw [List.rdropWhile, List.reverse_reverse]
  rw [List.dropWhile_eq_self_iff.mpr]
  intro hl
  rw [Bool.not_eq_true]
  exact h _ (List.get_mem cur 0 hl)

theorem splitWAux_single_rdrop (cs : Str) :
    ∀ cur w, cur ≠ [] → (∀ c ∈ cur, isWs c = false) → splitWAux cur cs = [w] →
      List.rdropWhile isWs (cur.reverse ++ cs) = w := by
  induction cs with
  | nil =>
    intro cur w hc hnw h
    simp [splitWAux, hc] at h
    subst h
    rw [List.append_nil]
    exact rdropWhile_noWs cur hnw
  | cons c cs' ih =>
    intro cur w hc hnw h
    by_cases hws : isWs c
    · simp only [splitWAux, hws, if_true, hc, if_false] at h
      have h1 : cur.reverse = w := (List.cons_eq_cons.mp (by simpa using h)).1
      have h2 : splitWAux [] cs' = [] := by
        have := (List.cons_eq_cons.mp (by simpa using h)).2
        simpa using this
      have hall : ∀ x ∈ c :: cs', isWs x = true := by
        intro x hx
        rcases List.mem_cons.mp hx with rfl | hx
        · exact hws
        · exact (splitWAux_eq_nil_iff cs').mp h2 x hx
      rw [rdropWhile_append_all _ _ hall, rdropWhile_noWs cur hnw, h1]
    · simp only [splitWAux, hws, Bool.false_eq_true, if_false] at h
      have := ih (c :: cur) w (by simp) ?_ h
      · simpa [List.append_assoc] using this
      · intro x hx
        rcases List.mem_cons.mp hx with rfl | hx
        · simpa using hws
        · exact hnw x hx

theorem splitW_single_trim (l w : Str) : splitW l = [w] → trimL l = w := by
  induction l with
  | nil => intro h; simp [splitW, splitWAux] at h
  | cons c cs ih =>
    intro h
    by_cases hws : isWs c
    · have h' : splitW cs = [w] := by simpa [splitW, splitWAux, hws] using h
      simpa [trimL, List.dropWhile_cons, hws] using ih h'
    · have h' : splitWAux [c] cs = [w] := by
        simpa [splitW, splitWAux, hws] using h
      have := splitWAux_single_rdrop cs [c] w (by simp)
        (by intro x hx; simp at hx; subst hx; simpa using hws) h'
      simpa [trimL, List.dropWhile_cons, hws] using this

theorem splitWAux_map_lower (l : Str) :
    ∀ cur, splitWAux (lowerStr cur) (lowerStr l) = (splitWAux cur l).map lowerStr := by
  induction l with
  | nil =>
    intro cur
    by_cases h : cur = []
    · simp [splitWAux, h, lowerStr]
    · have h' : lowerStr cur ≠ [] := by simp [lowerStr, h]
      simp [splitWAux, h, h', lowerStr, List.map_reverse]
  | cons c cs ih =>
    intro cur
    show splitWAux (lowerStr cur) (lowerChar c :: lowerStr cs) = _
    by_cases hws : isWs c
    · have hl : isWs (lowerChar c) = true := by rw [isWs_lowerChar]; exact hws
      by_cases h : cur = []
      · have h' : lowerStr cur = [] := by simp [lowerStr, h]
        rw [show splitWAux cur (c :: cs) = splitWAux [] cs from by
          simp [splitWAux, hws, h]]
        rw [h']
        rw [show splitWAux [] (lowerChar c :: lowerStr cs) = splitWAux [] (lowerStr cs) from by
          simp [splitWAux, hl]]
        simpa [lowerStr] using ih []
      · have h' : lowerStr cur ≠ [] := by simp [lowerStr, h]
        rw [show splitWAux cur (c :: cs) = cur.reverse :: splitWAux [] cs from by
          simp [splitWAux, hws, h]]
        rw [show splitWAux (lowerStr cur) (lowerChar c :: lowerStr cs) =
            (lowerStr cur).reverse :: splitWAux [] (lowerStr cs) from by
          simp [splitWAux, hl, h']]
        rw [List.map_cons]
        congr 1
        · simp [lowerStr, List.map_reverse]
        · simpa [lowerStr] using ih []
    · have hl : isWs (lowerChar c) = false := by rw [isWs_lowerChar]; simpa using hws
      rw [show splitWAux cur (c :: cs) = splitWAux (c :: cur) cs from by
        simp [splitWAux, hws]]
      rw [show splitWAux (lowerStr cur) (lowerChar c :: lowerStr cs) =
          splitWAux (lowerChar c :: lowerStr cur) (lowerStr cs) from by
        simp [splitWAux, hl]]
      have hcons : lowerChar c :: lowerStr cur = lowerStr (c :: cur) := by simp [lowerStr]
      rw [hcons]
      exact ih (c :: cur)

theorem splitW_map_lower (l : Str) : splitW (lowerStr l) = (splitW l).map lowerStr := by
  have := splitWAux_map_lower l []
  simpa [splitW, lowerStr] using this

theorem cmd_lower_single (line w : Str) (h : splitW line = [w]) :
    trimL (lowerStr line) = lowerStr w := by
  refine splitW_single_trim _ _ ?_
  rw [splitW_map_lower, h]
  rfl

theorem stripQuotes_sublist (t : Str) : (stripQuotes t).Sublist t :=
  ((List.rdropWhile_prefix _ _).sublist).trans (List.dropWhile_sublist _)

theorem stripQuotes_noWs (t : Str) (h : ∀ c ∈ t, isWs c = false) :
    ∀ c ∈ stripQuotes t, isWs c = false :=
  fun c hc => h c (List.Sublist.mem hc (stripQuotes_sublist t))

theorem mem_dropWhile_of_neg {p : Char → Bool} :
    ∀ (l : Str) (c : Char), c ∈ l → p c = false → c ∈ List.dropWhile p l := by
  intro l
  induction l with
  | nil => intro c hc _; simp at hc
  | cons a l' ih =>
    intro c hc hpc
    by_cases hp : p a
    · rcases List.mem_cons.mp hc with rfl | hc
      · rw [hp] at hpc; exact absurd hpc (by simp)
      · simpa [List.dropWhile_cons, hp] using ih c hc hpc
    · simpa [List.dropWhile_cons, hp] using hc

theorem mem_stripQuotes_of_not_quote (t : Str) (c : Char) (hc : c ∈ t)
    (h : isQuoteChar c = false) : c ∈ stripQuotes t := by
  unfold stripQuotes
  rw [List.rdropWhile]
  rw [List.mem_reverse]
  exact mem_dropWhile_of_neg _ c (by rw [List.mem_reverse]; exact mem_dropWhile_of_neg _ c hc h) h

theorem getD_mem {α : Type} (l : List α) (n : Nat) (d : α) (h : n < l.length) :
    l.getD n d ∈ l := by
  rw [List.getD_eq_getElem _ _ h]
  exact List.getElem_mem h

namespace WebTerminal

theorem delFolderLoop_some (orig : List Str) (ws : List Str) :
    ∀ (i : Nat) (t : Str), delFolderLoop orig i ws = some t →
      ∃ w ∈ orig, t = stripQuotes w := by
  induction ws with
  | nil => intro i t h; simp [delFolderLoop] at h
  | cons w ws' ih =>
    intro i t h
    simp only [delFolderLoop] at h
    split_ifs at h with h1 h2 h3
    · exact ⟨orig.getD (i + 1) [], getD_mem _ _ _ h1.2, (Option.some.inj h).symm⟩
    · exact ⟨orig.getD (i + 1) [], getD_mem _ _ _ h2.2, (Option.some.inj h).symm⟩
    · exact ih (i + 1) t h
    · exact ih (i + 1) t h

theorem delFileKeyLoop_some (orig : List Str) (ws : List Str) :
    ∀ (i : Nat) (t : Str), delFileKeyLoop orig i ws = some t →
      ∃ w ∈ orig, t = stripQuotes w := by
  induction ws with
  | nil => intro i t h; simp [delFileKeyLoop] at h
  | cons w ws' ih =>
    intro i t h
    simp only [delFileKeyLoop] at h
    split_ifs at h with h1 h2 h3
    · exact ⟨orig.getD (i + 1) [], getD_mem _ _ _ h1.2, (Option.some.inj h).symm⟩
    · exact ⟨orig.getD (i + 1) [], getD_mem _ _ _ h2.2, (Option.some.inj h).symm⟩
    · exact ih (i + 1) t h
    · exact ih (i + 1) t h

theorem delVerbLoop_some (orig : List Str) (ws : List Str) :
    ∀ (i : Nat) (t : Str), delVerbLoop orig i ws = some t →
      ∃ w ∈ orig, t = stripQuotes w := by
  induction ws with
  | nil => intro i t h; simp [delVerbLoop] at h
  | cons w ws' ih =>
    intro i t h
    simp only [delVerbLoop] at h
    split_ifs at h with h1 h2
    · exact ih (i + 1) t h
    · exact ⟨orig.getD (i + 1) [], getD_mem _ _ _ h1.2, (Option.some.inj h).symm⟩
    · exact ih (i + 1) t h

theorem createFileLoop_some (orig : List Str) (ws : List Str) :
    ∀ (i : Nat) (t : Str), createFileLoop orig i ws = some t →
      ∃ w ∈ orig, t = stripQuotes w := by
  induction ws with
  | nil => intro i t h; simp [createFileLoop] at h
  | cons w ws' ih =>
    intro i t h
    simp only [createFileLoop] at h
    split_ifs at h with h1 h2
    · exact ⟨orig.getD (i + 1) [], getD_mem _ _ _ h1.2, (Option.some.inj h).symm⟩
    · exact ⟨orig.getD (i + 1) [], getD_mem _ _ _ h2.2.1, (Option.some.inj h).symm⟩
    · exact ih (i + 1) t h

theorem createFolderLoop_some (orig : List Str) (ws : List Str) :
    ∀ (i : Nat) (t : Str), createFolderLoop orig i ws = some t →
      ∃ w ∈ orig, t = stripQuotes w := by
  induction ws with
  | nil => intro i t h; simp [createFolderLoop] at h
  | cons w ws' ih =>
    intro i t h
    simp only [createFolderLoop] at h
    split_ifs at h with h1 h2 h3
    · exact ⟨orig.getD (i + 1) [], getD_mem _ _ _ h1.2, (Option.some.inj h).symm⟩
    · exact ih (i + 1) t h
    · exact ⟨orig.getD (i + 1) [], getD_mem _ _ _ h2.2, (Option.some.inj h).symm⟩
    · exact ih (i + 1) t h

theorem writeToInFind_some (orig : List Str) (ws : List Str) :
    ∀ (i : Nat) (t : Str), writeToInFind orig i ws = some t →
      ∃ w ∈ orig, t = stripQuotes w := by
  induction ws with
  | nil => intro i t h; simp [writeToInFind] at h
  | cons w ws' ih =>
    intro i t h
    simp only [writeToInFind] at h
    split_ifs at h with h1
    · exact ⟨orig.getD (i + 1) [], getD_mem _ _ _ h1.2, (Option.some.inj h).symm⟩
    · exact ih (i + 1) t h

theorem dotFind_some (orig : List Str) (t : Str) (h : dotFind orig = some t) :
    ∃ w ∈ orig, t = stripQuotes w ∧ hasDot w = true := by
  unfold dotFind at h
  rcases Option.map_eq_some'.mp h with ⟨w, hf, rfl⟩
  refine ⟨w, List.mem_of_find?_eq_some hf, rfl, ?_⟩
  have := List.find?_some hf
  simp only [Bool.and_eq_true] at this
  exact this.1

theorem delDotFind_some (orig : List Str) (t : Str) (h : delDotFind orig = some t) :
    ∃ w ∈ orig, t = stripQuotes w ∧ hasDot w = true := by
  unfold delDotFind at h
  rcases Option.map_eq_some'.mp h with ⟨w, hf, rfl⟩
  refine ⟨w, List.mem_of_find?_eq_some hf, rfl, ?_⟩
  have := List.find?_some hf
  simp only [Bool.and_eq_true] at this
  exact this.1.1

theorem stripQuotes_ne_nil_of_dot (w : Str) (h : hasDot w = true) :
    stripQuotes w ≠ [] := by
  intro hn
  have hd : '.' ∈ w := by simpa [hasDot] using h
  have : '.' ∈ stripQuotes w := mem_stripQuotes_of_not_quote w '.' hd (by decide)
  rw [hn] at this
  simp at this

end WebTerminal

theorem noWs_append (a b : Str) (ha : noWsStr a) (hb : noWsStr b) : noWsStr (a ++ b) := by
  intro c hc
  rcases List.mem_append.mp hc with h | h
  exacts [ha c h, hb c h]

namespace WebTerminal

theorem addExtension_noWs (cl fn : Str) (h : noWsStr fn) :
    noWsStr (addExtension cl fn) := by
  unfold addExtension
  split_ifs <;> first | exact h | exact noWs_append _ _ h (by decide)

theorem addExtension_ne (cl fn : Str) (h : fn ≠ []) : addExtension cl fn ≠ [] := by
  unfold addExtension
  split_ifs <;> first | exact h | exact fun hx => h (List.append_eq_nil.mp hx).1

theorem fileNameSearch_some (orig words : List Str) (t : Str)
    (h : fileNameSearch orig words = some t) : ∃ w ∈ orig, t = stripQuotes w := by
  unfold fileNameSearch at h
  cases hc : createFileLoop orig 0 words with
  | some u =>
    rw [hc] at h
    have h' : (if u = [] then dotFind orig else some u) = some t := h
    by_cases hu : u = []
    · rw [if_pos hu] at h'
      rcases dotFind_some orig t h' with ⟨w, hm, ht, _⟩
      exact ⟨w, hm, ht⟩
    · rw [if_neg hu] at h'
      rcases createFileLoop_some orig words 0 u hc with ⟨w, hm, hu'⟩
      exact ⟨w, hm, by rw [← Option.some.inj h', hu']⟩
  | none =>
    rw [hc] at h
    rcases dotFind_some orig t h with ⟨w, hm, ht, _⟩
    exact ⟨w, hm, ht⟩

theorem writeNameSearch_some (orig : List Str) (t : Str)
    (h : writeNameSearch orig = some t) : ∃ w ∈ orig, t = stripQuotes w := by
  unfold writeNameSearch at h
  cases hc : writeToInFind orig 0 orig with
  | some u =>
    rw [hc] at h
    have h' : (if u = [] then dotFind orig else some u) = some t := h
    by_cases hu : u = []
    · rw [if_pos hu] at h'
      rcases dotFind_some orig t h' with ⟨w, hm, ht, _⟩
      exact ⟨w, hm, ht⟩
    · rw [if_neg hu] at h'
      rcases writeToInFind_some orig orig 0 u hc with ⟨w, hm, hu'⟩
      exact ⟨w, hm, by rw [← Option.some.inj h', hu']⟩
  | none =>
    rw [hc] at h
    rcases dotFind_some orig t h with ⟨w, hm, ht, _⟩
    exact ⟨w, hm, ht⟩

theorem directTwoWord_shape (orig : List Str) (hw : ∀ w ∈ orig, noWsStr w)
    (hne : ∀ w ∈ orig, w ≠ []) (r : Str) (h : directTwoWord orig = some r) :
    FallbackShape r := by
  rcases orig with _ | ⟨a, _ | ⟨t, _ | ⟨x, rest⟩⟩⟩
  · simp [directTwoWord] at h
  · simp [directTwoWord] at h
  · simp only [directTwoWord] at h
    split_ifs at h with h1 h2 h3 h4
    · exact Or.inl ⟨t, (Option.some.inj h).symm, hw t (by simp)⟩
    · exact Or.inr (Or.inl ⟨t, (Option.some.inj h).symm, hw t (by simp), hne t (by simp)⟩)
    · exact Or.inr (Or.inr (Or.inl
        ⟨t, (Option.some.inj h).symm, hw t (by simp), hne t (by simp)⟩))
    · exact Or.inr (Or.inr (Or.inr (Or.inl ⟨t, (Option.some.inj h).symm, hw t (by simp)⟩)))
  · simp [directTwoWord] at h

theorem deletionResult_shape (cl : Str) (orig words : List Str)
    (hw : ∀ w ∈ orig, noWsStr w) : FallbackShape (deletionResult cl orig words) := by
  unfold deletionResult
  split_ifs with hfol
  · cases hL : delFolderLoop orig 0 words with
    | some t =>
      rcases delFolderLoop_some orig words 0 t hL with ⟨w, hm, rfl⟩
      exact Or.inr (Or.inr (Or.inr (Or.inl
        ⟨stripQuotes w, rfl, stripQuotes_noWs w (hw w hm)⟩)))
    | none =>
      exact Or.inr (Or.inr (Or.inr (Or.inl ⟨strL "temp", by decide, by decide⟩)))
  · cases hD : delDotFind orig with
    | some t =>
      rcases delDotFind_some orig t hD with ⟨w, hm, rfl, _⟩
      exact Or.inl ⟨stripQuotes w, rfl, stripQuotes_noWs w (hw w hm)⟩
    | none =>
      cases hK : delFileKeyLoop orig 0 words with
      | some t =>
        rcases delFileKeyLoop_some orig words 0 t hK with ⟨w, hm, rfl⟩
        exact Or.inl ⟨stripQuotes w, rfl, stripQuotes_noWs w (hw w hm)⟩
      | none =>
        cases hV : delVerbLoop orig 0 words with
        | some t =>
          rcases delVerbLoop_some orig words 0 t hV with ⟨w, hm, rfl⟩
          exact Or.inl ⟨stripQuotes w, rfl, stripQuotes_noWs w (hw w hm)⟩
        | none => exact Or.inl ⟨strL "temp.txt", by decide, by decide⟩

theorem creationResult_shape (cl : Str) (orig words : List Str)
    (hw : ∀ w ∈ orig, noWsStr w) (r : Str)
    (h : creationResult cl orig words = some r) : FallbackShape r := by
  unfold creationResult at h
  split_ifs at h with hfile hfol
  · have hr := (Option.some.inj h).symm
    cases hf : fileNameSearch orig words with
    | some fn =>
      rw [hf] at hr
      rcases fileNameSearch_some orig words fn hf with ⟨w, hm, rfl⟩
      have hr' : r = if stripQuotes w ≠ [] then strL "touch " ++ addExtension cl (stripQuotes w)
          else strL "touch newfile.txt" := hr
      by_cases hfn : stripQuotes w ≠ []
      · rw [if_pos hfn] at hr'
        exact Or.inr (Or.inl ⟨addExtension cl (stripQuotes w), hr',
          addExtension_noWs cl _ (stripQuotes_noWs w (hw w hm)),
          addExtension_ne cl _ hfn⟩)
      · rw [if_neg hfn] at hr'
        exact Or.inr (Or.inl ⟨strL "newfile.txt", by rw [hr']; decide, by decide, by decide⟩)
    | none =>
      rw [hf] at hr
      have hr' : r = strL "touch newfile.txt" := hr
      exact Or.inr (Or.inl ⟨strL "newfile.txt", by rw [hr']; decide, by decide, by decide⟩)
  · have hr := (Option.some.inj h).symm
    cases hf : createFolderLoop orig 0 words with
    | some d =>
      rw [hf] at hr
      rcases createFolderLoop_some orig words 0 d hf with ⟨w, hm, rfl⟩
      have hr' : r = if stripQuotes w ≠ [] then strL "mkdir " ++ stripQuotes w
          else strL "mkdir newfolder" := hr
      by_cases hd : stripQuotes w ≠ []
      · rw [if_pos hd] at hr'
        exact Or.inr (Or.inr (Or.inl
          ⟨stripQuotes w, hr', stripQuotes_noWs w (hw w hm), hd⟩))
      · rw [if_neg hd] at hr'
        exact Or.inr (Or.inr (Or.inl
          ⟨strL "newfolder", by rw [hr']; decide, by decide, by decide⟩))
    | none =>
      rw [hf] at hr
      have hr' : r = strL "mkdir newfolder" := hr
      exact Or.inr (Or.inr (Or.inl
        ⟨strL "newfolder", by rw [hr']; decide, by decide, by decide⟩))

theorem creationGate_shape (cl : Str) (orig words : List Str)
    (hw : ∀ w ∈ orig, noWsStr w) (r : Str)
    (h : creationGate cl orig words = some r) : FallbackShape r := by
  unfold creationGate at h
  split_ifs at h with htrig
  exact creationResult_shape cl orig words hw r h

theorem writeResult_shape (orig : List Str) (hw : ∀ w ∈ orig, noWsStr w) (r : Str)
    (h : writeResult orig = some r) : FallbackShape r := by
  unfold writeResult at h
  cases hf : writeNameSearch orig with
  | some fn =>
    rw [hf] at h
    rcases writeNameSearch_some orig fn hf with ⟨w, hm, rfl⟩
    have h' : (if stripQuotes w ≠ [] then
        some (if stripQuotes (joinSpace (collectContent false orig)) ≠ [] then
                strL "echo " ++ stripQuotes (joinSpace (collectContent false orig)) ++
                  strL " > " ++ stripQuotes w
              else strL "touch " ++ stripQuotes w)
      else none) = some r := h
    by_cases hfn : stripQuotes w ≠ []
    · rw [if_pos hfn] at h'
      have hr := (Option.some.inj h').symm
      by_cases hc : stripQuotes (joinSpace (collectContent false orig)) ≠ []
      · rw [if_pos hc] at hr
        refine Or.inr (Or.inr (Or.inr (Or.inr (Or.inr (Or.inr ⟨?_, ?_⟩)))))
        · exact stripQuotes (joinSpace (collectContent false orig)) ++ strL " > " ++
            stripQuotes w
        · rw [hr]; simp [List.append_assoc]
      · rw [if_neg hc] at hr
        exact Or.inr (Or.inl ⟨stripQuotes w, hr, stripQuotes_noWs w (hw w hm), hfn⟩)
    · rw [if_neg hfn] at h'
      simp at h'
  | none =>
    rw [hf] at h
    simp at h

theorem writeGate_shape (cl : Str) (orig : List Str) (hw : ∀ w ∈ orig, noWsStr w)
    (r : Str) (h : writeGate cl orig = some r) : FallbackShape r := by
  unfold writeGate at h
  split_ifs at h with htrig
  exact writeResult_shape orig hw r h

theorem listingResult_shape (cl : Str) (r : Str) (h : listingResult cl = some r) :
    FallbackShape r := by
  unfold listingResult at h
  split_ifs at h <;>
    exact Or.inr (Or.inr (Or.inr (Or.inr (Or.inr (Or.inl (Option.some.inj h).symm)))))

theorem fallback_shape (command r : Str)
    (h : parse_with_fallback_patterns command = some r) : FallbackShape r := by
  have hw : ∀ w ∈ splitW command, noWsStr w :=
    fun w hmem => splitWAux_mem_noWs command [] (by simp) w hmem
  have hne : ∀ w ∈ splitW command, w ≠ [] :=
    fun w hmem => splitWAux_mem_ne_nil command [] w hmem
  unfold parse_with_fallback_patterns at h
  cases hd : directTwoWord (splitW command) with
  | some r0 =>
    simp only [hd, Option.some.injEq] at h
    rw [← h]
    exact directTwoWord_shape (splitW command) hw hne r0 hd
  | none =>
    simp only [hd] at h
    split_ifs at h with hcount hdel
    · exact Or.inr (Or.inr (Or.inr (Or.inr (Or.inl (Option.some.inj h).symm))))
    · rw [← Option.some.inj h]
      exact deletionResult_shape _ _ _ hw
    · cases hcg : creationGate (trimL (lowerStr command)) (splitW command)
        (splitW (trimL (lowerStr command))) with
      | some r0 =>
        rw [hcg] at h
        rw [← Option.some.inj h]
        exact creationGate_shape _ _ _ hw r0 hcg
      | none =>
        rw [hcg] at h
        cases hwg : writeGate (trimL (lowerStr command)) (splitW command) with
        | some r0 =>
          rw [hwg] at h
          rw [← Option.some.inj h]
          exact writeGate_shape _ _ hw r0 hwg
        | none =>
          rw [hwg] at h
          exact listingResult_shape _ r h

end WebTerminal

theorem splitW_word_space (w t : Str) (hnw : noWsStr w) (hne : w ≠ []) :
    splitW (w ++ ' ' :: t) = w :: splitW t := by
  have := splitWAux_append_word w [] t hnw (by simpa using hne)
  simpa [splitW] using this

theorem splitW_noWs_single (t : Str) (hnw : noWsStr t) (hne : t ≠ []) :
    splitW t = [t] := by
  have := splitWAux_noWs_single t [] hnw (by simpa using hne)
  simpa [splitW] using this

namespace WebTerminal

theorem routeOfArgs_rm (line t : Str) :
    routeOfArgs line [strL "rm", t] = .builtin (strL "rm") := rfl

theorem routeOfArgs_touch (line t : Str) :
    routeOfArgs line [strL "touch", t] = .builtin (strL "touch") := rfl

theorem routeOfArgs_mkdir (line t : Str) :
    routeOfArgs line [strL "mkdir", t] = .builtin (strL "mkdir") := rfl

theorem routeOfArgs_rmdir (line t : Str) :
    routeOfArgs line [strL "rmdir", t] = .builtin (strL "rmdir") := rfl

theorem routeOfArgs_echo (line : Str) (rest : List Str) :
    routeOfArgs line (strL "echo" :: rest) = .builtin (strL "echo") := rfl

end WebTerminal

namespace WebTerminal

theorem fallback_not_natural (cmd r : Str)
    (h : parse_with_fallback_patterns cmd = some r) :
    execute_command_route r ≠ Route.natural := by
  rcases fallback_shape cmd r h with
    ⟨t, rfl, hnw⟩ | ⟨t, rfl, hnw, hte⟩ | ⟨t, rfl, hnw, hte⟩ | ⟨t, rfl, hnw⟩ |
    rfl | rfl | ⟨rest, rfl⟩
  · by_cases hte : t = []
    · subst hte; decide
    · have hsp : splitW (strL "rm " ++ t) = [strL "rm", t] := by
        have h1 := splitW_word_space (strL "rm") t (by decide) (by decide)
        rw [splitW_noWs_single t hnw hte] at h1
        exact h1
      have htr : trimL (strL "rm " ++ t) ≠ [] := by
        intro hx
        have h0 := (trimL_eq_nil_iff _).mp hx 'r' (List.mem_append.mpr (Or.inl (by decide)))
        exact absurd h0 (by decide)
      unfold execute_command_route
      rw [if_neg htr, hsp, routeOfArgs_rm]
      decide
  · have hsp : splitW (strL "touch " ++ t) = [strL "touch", t] := by
      have h1 := splitW_word_space (strL "touch") t (by decide) (by decide)
      rw [splitW_noWs_single t hnw hte] at h1
      exact h1
    have htr : trimL (strL "touch " ++ t) ≠ [] := by
      intro hx
      have h0 := (trimL_eq_nil_iff _).mp hx 't' (List.mem_append.mpr (Or.inl (by decide)))
      exact absurd h0 (by decide)
    unfold execute_command_route
    rw [if_neg htr, hsp, routeOfArgs_touch]
    decide
  · have hsp : splitW (strL "mkdir " ++ t) = [strL "mkdir", t] := by
      have h1 := splitW_word_space (strL "mkdir") t (by decide) (by decide)
      rw [splitW_noWs_single t hnw hte] at h1
      exact h1
    have htr : trimL (strL "mkdir " ++ t) ≠ [] := by
      intro hx
      have h0 := (trimL_eq_nil_iff _).mp hx 'm' (List.mem_append.mpr (Or.inl (by decide)))
      exact absurd h0 (by decide)
    unfold execute_command_route
    rw [if_neg htr, hsp, routeOfArgs_mkdir]
    decide
  · by_cases hte : t = []
    · subst hte; decide
    · have hsp : splitW (strL "rmdir " ++ t) = [strL "rmdir", t] := by
        have h1 := splitW_word_space (strL "rmdir") t (by decide) (by decide)
        rw [splitW_noWs_single t hnw hte] at h1
        exact h1
      have htr : trimL (strL "rmdir " ++ t) ≠ [] := by
        intro hx
        have h0 := (trimL_eq_nil_iff _).mp hx 'r' (List.mem_append.mpr (Or.inl (by decide)))
        exact absurd h0 (by decide)
      unfold execute_command_route
      rw [if_neg htr, hsp, routeOfArgs_rmdir]
      decide
  · decide
  · decide
  · have hsp : splitW (strL "echo " ++ rest) = strL "echo" :: splitW rest := by
      have h1 := splitW_word_space (strL "echo") rest (by decide) (by decide)
      exact h1
    have htr : trimL (strL "echo " ++ rest) ≠ [] := by
      intro hx
      have h0 := (trimL_eq_nil_iff _).mp hx 'e' (List.mem_append.mpr (Or.inl (by decide)))
      exact absurd h0 (by decide)
    unfold execute_command_route
    rw [if_neg htr, hsp, routeOfArgs_echo]
    decide

theorem fallback_head (cmd r : Str)
    (h : parse_with_fallback_patterns cmd = some r) :
    (splitW r).headD [] ∈ fallbackHeads := by
  rcases fallback_shape cmd r h with
    ⟨t, rfl, hnw⟩ | ⟨t, rfl, hnw, hte⟩ | ⟨t, rfl, hnw, hte⟩ | ⟨t, rfl, hnw⟩ |
    rfl | rfl | ⟨rest, rfl⟩
  · rw [show splitW (strL "rm " ++ t) = strL "rm" :: splitW t from
      splitW_word_space (strL "rm") t (by decide) (by decide)]
    rw [List.headD_cons]
    decide
  · rw [show splitW (strL "touch " ++ t) = strL "touch" :: splitW t from
      splitW_word_space (strL "touch") t (by decide) (by decide)]
    rw [List.headD_cons]
    decide
  · rw [show splitW (strL "mkdir " ++ t) = strL "mkdir" :: splitW t from
      splitW_word_space (strL "mkdir") t (by decide) (by decide)]
    rw [List.headD_cons]
    decide
  · rw [show splitW (strL "rmdir " ++ t) = strL "rmdir" :: splitW t from
      splitW_word_space (strL "rmdir") t (by decide) (by decide)]
    rw [List.headD_cons]
    decide
  · decide
  · decide
  · rw [show splitW (strL "echo " ++ rest) = strL "echo" :: splitW rest from
      splitW_word_space (strL "echo") rest (by decide) (by decide)]
    rw [List.headD_cons]
    decide

end WebTerminal

theorem splitW_ne_nil_of_trim (line : Str) (h : trimL line ≠ []) : splitW line ≠ [] := by
  intro hx
  exact h ((trimL_eq_nil_iff line).mpr ((splitWAux_eq_nil_iff line).mp hx))

namespace WebTerminal

theorem looks_like_eq_of_cmd_lower (line u : Str) (h : trimL (lowerStr line) = u) :
    looks_like_natural_language line =
      (if natural_indicators.any (fun ind => containsSub ind u) then true
       else decide ((splitW u).length > 2) &&
         (splitW u).any fun x => decide (x ∈ common_words)) := by
  simp only [looks_like_natural_language, h]

theorem routeOfArgs_help (line : Str) (rest : List Str) :
    routeOfArgs line (strL "help" :: rest) = .builtin (strL "help") := rfl

theorem routeOfArgs_pwd (line : Str) (rest : List Str) :
    routeOfArgs line (strL "pwd" :: rest) = .builtin (strL "pwd") := rfl

theorem routeOfArgs_ls (line : Str) (rest : List Str) :
    routeOfArgs line (strL "ls" :: rest) = .builtin (strL "ls") := rfl

theorem routeOfArgs_dir (line : Str) (rest : List Str) :
    routeOfArgs line (strL "dir" :: rest) = .builtin (strL "dir") := rfl

theorem routeOfArgs_count (line : Str) (rest : List Str) :
    routeOfArgs line (strL "count" :: rest) = .builtin (strL "count") := rfl

theorem routeOfArgs_echo_rest (line : Str) (rest : List Str) :
    routeOfArgs line (strL "echo" :: rest) = .builtin (strL "echo") := rfl

theorem routeOfArgs_clear (line : Str) (rest : List Str) :
    routeOfArgs line (strL "clear" :: rest) = .builtin (strL "clear") := rfl

theorem routeOfArgs_history (line : Str) (rest : List Str) :
    routeOfArgs line (strL "history" :: rest) = .builtin (strL "history") := rfl

theorem routeOfArgs_ai (line : Str) (rest : List Str) :
    routeOfArgs line (strL "ai" :: rest) = .builtin (strL "ai") := rfl

theorem routeOfArgs_mkdir_one (line : Str) :
    routeOfArgs line [strL "mkdir"] =
      (if looks_like_natural_language line then Route.natural else Route.system) := rfl

theorem routeOfArgs_touch_one (line : Str) :
    routeOfArgs line [strL "touch"] =
      (if looks_like_natural_language line then Route.natural else Route.system) := rfl

theorem routeOfArgs_cat_one (line : Str) :
    routeOfArgs line [strL "cat"] =
      (if looks_like_natural_language line then Route.natural else Route.system) := rfl

theorem routeOfArgs_rm_one (line : Str) :
    routeOfArgs line [strL "rm"] =
      (if looks_like_natural_language line then Route.natural else Route.system) := rfl

theorem routeOfArgs_del_one (line : Str) :
    routeOfArgs line [strL "del"] =
      (if looks_like_natural_language line then Route.natural else Route.system) := rfl

theorem routeOfArgs_rmdir_one (line : Str) :
    routeOfArgs line [strL "rmdir"] =
      (if looks_like_natural_language line then Route.natural else Route.system) := rfl

theorem routeOfArgs_edit_one (line : Str) :
    routeOfArgs line [strL "edit"] =
      (if looks_like_natural_language line then Route.natural else Route.system) := rfl

theorem routeOfArgs_mkdir_long (line b : Str) (rest : List Str) :
    routeOfArgs line (strL "mkdir" :: b :: rest) = .builtin (strL "mkdir") := by
  simp only [routeOfArgs, List.headD_cons]
  rw [if_neg (by decide), if_neg (by decide), if_neg (by decide), if_neg (by decide),
    if_pos ⟨trivial, by simp only [List.length_cons]; omega⟩]

theorem routeOfArgs_touch_long (line b : Str) (rest : List Str) :
    routeOfArgs line (strL "touch" :: b :: rest) = .builtin (strL "touch") := by
  simp only [routeOfArgs, List.headD_cons]
  rw [if_neg (by decide), if_neg (by decide), if_neg (by decide), if_neg (by decide),
    if_neg (fun hc => absurd hc.1 (by decide)),
    if_pos ⟨trivial, by simp only [List.length_cons]; omega⟩]

theorem routeOfArgs_cat_long (line b : Str) (rest : List Str) :
    routeOfArgs line (strL "cat" :: b :: rest) = .builtin (strL "cat") := by
  simp only [routeOfArgs, List.headD_cons]
  rw [if_neg (by decide), if_neg (by decide), if_neg (by decide), if_neg (by decide),
    if_neg (fun hc => absurd hc.1 (by decide)), if_neg (fun hc => absurd hc.1 (by decide)),
    if_pos ⟨trivial, by simp only [List.length_cons]; omega⟩]

theorem routeOfArgs_rm_long (line b : Str) (rest : List Str) :
    routeOfArgs line (strL "rm" :: b :: rest) = .builtin (strL "rm") := by
  simp only [routeOfArgs, List.headD_cons]
  rw [if_neg (by decide), if_neg (by decide), if_neg (by decide), if_neg (by decide),
    if_neg (fun hc => absurd hc.1 (by decide)), if_neg (fun hc => absurd hc.1 (by decide)),
    if_neg (fun hc => absurd hc.1 (by decide)),
    if_pos ⟨Or.inl trivial, by simp only [List.length_cons]; omega⟩]

theorem routeOfArgs_del_long (line b : Str) (rest : List Str) :
    routeOfArgs line (strL "del" :: b :: rest) = .builtin (strL "del") := by
  simp only [routeOfArgs, List.headD_cons]
  rw [if_neg (by decide), if_neg (by decide), if_neg (by decide), if_neg (by decide),
    if_neg (fun hc => absurd hc.1 (by decide)), if_neg (fun hc => absurd hc.1 (by decide)),
    if_neg (fun hc => absurd hc.1 (by decide)),
    if_pos ⟨Or.inr trivial, by simp only [List.length_cons]; omega⟩]

theorem routeOfArgs_rmdir_long (line b : Str) (rest : List Str) :
    routeOfArgs line (strL "rmdir" :: b :: rest) = .builtin (strL "rmdir") := by
  simp only [routeOfArgs, List.headD_cons]
  rw [if_neg (by decide), if_neg (by decide), if_neg (by decide), if_neg (by decide),
    if_neg (fun hc => absurd hc.1 (by decide)), if_neg (fun hc => absurd hc.1 (by decide)),
    if_neg (fun hc => absurd hc.1 (by decide)), if_neg (fun hc => absurd hc.1 (by decide)),
    if_pos ⟨trivial, by simp only [List.length_cons]; omega⟩]

theorem routeOfArgs_edit_long (line b : Str) (rest : List Str) :
    routeOfArgs line (strL "edit" :: b :: rest) = .builtin (strL "edit") := by
  simp only [routeOfArgs, List.headD_cons]
  rw [if_neg (by decide), if_neg (by decide), if_neg (by decide), if_neg (by decide),
    if_neg (fun hc => absurd hc.1 (by decide)), if_neg (fun hc => absurd hc.1 (by decide)),
    if_neg (fun hc => absurd hc.1 (by decide)), if_neg (fun hc => absurd hc.1 (by decide)),
    if_neg (fun hc => absurd hc.1 (by decide)), if_neg (by decide),
    if_pos ⟨trivial, by simp only [List.length_cons]; omega⟩]

theorem routeOfArgs_not_registered (line : Str) (args : List Str)
    (h : args.headD [] ∉ registeredNames) :
    routeOfArgs line args =
      (if looks_like_natural_language line then Route.natural else Route.system) := by
  have e1 : args.headD [] ≠ strL "help" := fun e => h (by rw [e]; decide)
  have e2 : args.headD [] ≠ strL "pwd" := fun e => h (by rw [e]; decide)
  have e3 : args.headD [] ≠ strL "ls" := fun e => h (by rw [e]; decide)
  have e4 : args.headD [] ≠ strL "dir" := fun e => h (by rw [e]; decide)
  have e5 : args.headD [] ≠ strL "count" := fun e => h (by rw [e]; decide)
  have e6 : args.headD [] ≠ strL "mkdir" := fun e => h (by rw [e]; decide)
  have e7 : args.headD [] ≠ strL "touch" := fun e => h (by rw [e]; decide)
  have e8 : args.headD [] ≠ strL "cat" := fun e => h (by rw [e]; decide)
  have e9 : args.headD [] ≠ strL "rm" := fun e => h (by rw [e]; decide)
  have e10 : args.headD [] ≠ strL "del" := fun e => h (by rw [e]; decide)
  have e11 : args.headD [] ≠ strL "rmdir" := fun e => h (by rw [e]; decide)
  have e12 : args.headD [] ≠ strL "echo" := fun e => h (by rw [e]; decide)
  have e13 : args.headD [] ≠ strL "edit" := fun e => h (by rw [e]; decide)
  have e14 : args.headD [] ≠ strL "clear" := fun e => h (by rw [e]; decide)
  have e15 : args.headD [] ≠ strL "history" := fun e => h (by rw [e]; decide)
  have e16 : args.headD [] ≠ strL "ai" := fun e => h (by rw [e]; decide)
  simp only [routeOfArgs]
  rw [if_neg e1, if_neg e2, if_neg (fun hc => hc.elim e3 e4), if_neg e5,
    if_neg (fun hc => e6 hc.1), if_neg (fun hc => e7 hc.1), if_neg (fun hc => e8 hc.1),
    if_neg (fun hc => hc.1.elim e9 e10), if_neg (fun hc => e11 hc.1), if_neg e12,
    if_neg (fun hc => e13 hc.1), if_neg e14, if_neg e15, if_neg e16]

end WebTerminal

namespace WebTerminal

theorem registered_never_natural (line : Str)
    (h : (splitW line).headD [] ∈ registeredNames) :
    execute_command_route line ≠ Route.natural := by
  by_cases htr : trimL line = []
  · unfold execute_command_route
    rw [if_pos htr]
    decide
  · unfold execute_command_route
    rw [if_neg htr]
    have hargs : splitW line ≠ [] := splitW_ne_nil_of_trim line htr
    obtain ⟨a, rest, hsp⟩ : ∃ a rest, splitW line = a :: rest := by
      cases hx : splitW line with
      | nil => exact absurd hx hargs
      | cons a rest => exact ⟨a, rest, rfl⟩
    rw [hsp] at h ⊢
    rw [List.headD_cons] at h
    simp only [registeredNames, List.mem_cons, List.not_mem_nil, or_false] at h
    rcases h with rfl | rfl | rfl | rfl | rfl | rfl | rfl | rfl | rfl | rfl | rfl | rfl |
      rfl | rfl | rfl | rfl
    · rw [routeOfArgs_help]; decide
    · rw [routeOfArgs_pwd]; decide
    · rw [routeOfArgs_ls]; decide
    · rw [routeOfArgs_dir]; decide
    · rw [routeOfArgs_count]; decide
    · cases rest with
      | nil =>
        rw [routeOfArgs_mkdir_one]
        have hl : looks_like_natural_language line = false := by
          rw [looks_like_eq_of_cmd_lower line (lowerStr (strL "mkdir"))
            (cmd_lower_single line _ hsp)]
          decide
        rw [hl]; decide
      | cons b rest2 => rw [routeOfArgs_mkdir_long]; decide
    · cases rest with
      | nil =>
        rw [routeOfArgs_touch_one]
        have hl : looks_like_natural_language line = false := by
          rw [looks_like_eq_of_cmd_lower line (lowerStr (strL "touch"))
            (cmd_lower_single line _ hsp)]
          decide
        rw [hl]; decide
      | cons b rest2 => rw [routeOfArgs_touch_long]; decide
    · cases rest with
      | nil =>
        rw [routeOfArgs_cat_one]
        have hl : looks_like_natural_language line = false := by
          rw [looks_like_eq_of_cmd_lower line (lowerStr (strL "cat"))
            (cmd_lower_single line _ hsp)]
          decide
        rw [hl]; decide
      | cons b rest2 => rw [routeOfArgs_cat_long]; decide
    · cases rest with
      | nil =>
        rw [routeOfArgs_rm_one]
        have hl : looks_like_natural_language line = false := by
          rw [looks_like_eq_of_cmd_lower line (lowerStr (strL "rm"))
            (cmd_lower_single line _ hsp)]
          decide
        rw [hl]; decide
      | cons b rest2 => rw [routeOfArgs_rm_long]; decide
    · cases rest with
      | nil =>
        rw [routeOfArgs_del_one]
        have hl : looks_like_natural_language line = false := by
          rw [looks_like_eq_of_cmd_lower line (lowerStr (strL "del"))
            (cmd_lower_single line _ hsp)]
          decide
        rw [hl]; decide
      | cons b rest2 => rw [routeOfArgs_del_long]; decide
    · cases rest with
      | nil =>
        rw [routeOfArgs_rmdir_one]
        have hl : looks_like_natural_language line = false := by
          rw [looks_like_eq_of_cmd_lower line (lowerStr (strL "rmdir"))
            (cmd_lower_single line _ hsp)]
          decide
        rw [hl]; decide
      | cons b rest2 => rw [routeOfArgs_rmdir_long]; decide
    · rw [routeOfArgs_echo_rest]; decide
    · cases rest with
      | nil =>
        rw [routeOfArgs_edit_one]
        have hl : looks_like_natural_language line = false := by
          rw [looks_like_eq_of_cmd_lower line (lowerStr (strL "edit"))
            (cmd_lower_single line _ hsp)]
          decide
        rw [hl]; decide
      | cons b rest2 => rw [routeOfArgs_edit_long]; decide
    · rw [routeOfArgs_clear]; decide
    · rw [routeOfArgs_history]; decide
    · rw [routeOfArgs_ai]; decide

theorem not_registered_natural_iff (line : Str)
    (h : (splitW line).headD [] ∉ registeredNames) :
    execute_command_route line = Route.natural ↔
      looks_like_natural_language line = true := by
  by_cases htr : trimL line = []
  · unfold execute_command_route
    rw [if_pos htr]
    have hall : ∀ c ∈ line, isWs c = true := (trimL_eq_nil_iff line).mp htr
    have hlow : trimL (lowerStr line) = [] := by
      rw [trimL_eq_nil_iff]
      intro c hc
      rcases List.mem_map.mp hc with ⟨d, hd, rfl⟩
      rw [isWs_lowerChar]
      exact hall d hd
    have hl : looks_like_natural_language line = false := by
      rw [looks_like_eq_of_cmd_lower line [] hlow]
      decide
    rw [hl]
    decide
  · unfold execute_command_route
    rw [if_neg htr, routeOfArgs_not_registered line _ h]
    by_cases hl : looks_like_natural_language line
    · rw [if_pos hl]
      simp [hl]
    · rw [if_neg hl]
      simp [hl]

end WebTerminal

namespace PythonTerminal

theorem appendHistory_length (h : List Str) (c : Str) (hl : h.length ≤ 100) :
    (appendHistory h c).length ≤ 100 := by
  simp only [appendHistory]
  split_ifs with hgt
  · simp only [List.length_tail, List.length_append, List.length_singleton]
    omega
  · simp only [List.length_append, List.length_singleton]
    simp only [List.length_append, List.length_singleton, not_lt] at hgt
    omega

theorem foldl_appendHistory_length (cs : List Str) :
    ∀ h : List Str, h.length ≤ 100 →
      (List.foldl appendHistory h cs).length ≤ 100 := by
  induction cs with
  | nil => intro h hl; simpa using hl
  | cons c cs' ih =>
    intro h hl
    exact ih (appendHistory h c) (appendHistory_length h c hl)

theorem foldl_appendHistory_small (cs : List Str) :
    ∀ h : List Str, h.length + cs.length ≤ 100 →
      List.foldl appendHistory h cs = h ++ cs := by
  induction cs with
  | nil => intro h _; simp
  | cons c cs' ih =>
    intro h hl
    simp only [List.length_cons] at hl
    have hstep : appendHistory h c = h ++ [c] := by
      unfold appendHistory
      rw [if_neg]
      simp only [List.length_append, List.length_singleton, not_lt]
      omega
    show List.foldl appendHistory (appendHistory h c) cs' = h ++ c :: cs'
    rw [hstep, ih (h ++ [c]) (by simp; omega)]
    simp

theorem foldl_appendHistory_101 (cs : List Str) (hlen : cs.length = 101) :
    List.foldl appendHistory [] cs = cs.drop 1 := by
  have hne : cs ≠ [] := by intro hx; rw [hx] at hlen; simp at hlen
  obtain ⟨ds, c, rfl⟩ : ∃ ds c, cs = ds ++ [c] := by
    refine ⟨cs.dropLast, cs.getLast hne, ?_⟩
    rw [List.dropLast_append_getLast hne]
  have hds : ds.length = 100 := by
    simp only [List.length_append, List.length_singleton] at hlen
    omega
  have hdsne : ds ≠ [] := by
    intro hx; rw [hx] at hds; simp at hds
  rw [List.foldl_append]
  rw [foldl_appendHistory_small ds [] (by simp [hds])]
  simp only [List.foldl_cons, List.foldl_nil, List.nil_append]
  simp only [appendHistory]
  rw [if_pos (by simp [hds])]
  rw [← List.drop_one, List.drop_append_of_le_length (by simp [hds])]

end PythonTerminal

namespace WebTerminal

theorem foldl_appendHistory_web (cs : List Str) :
    ∀ h : List Str, List.foldl appendHistory h cs = h ++ cs := by
  induction cs with
  | nil => intro h; simp
  | cons c cs' ih =>
    intro h
    show List.foldl appendHistory (appendHistory h c) cs' = h ++ c :: cs'
    rw [ih]
    simp [appendHistory]

theorem call_gemini_exception (s : AIState) :
    call_gemini_api s .exception = (s, none) := by
  unfold call_gemini_api
  split_ifs <;> rfl

theorem call_gemini_httpError (s : AIState) (h : s.gemini_ok = true) :
    (call_gemini_api s .httpError).1.ai_enabled = false := by
  unfold call_gemini_api
  rw [if_neg (by simp [h])]

theorem call_gemini_preserves_disabled (s : AIState) (o : ApiOutcome)
    (h : s.ai_enabled = false) : (call_gemini_api s o).1.ai_enabled = false := by
  unfold call_gemini_api
  split_ifs with hok
  · cases o <;> simp [h]
  · exact h

theorem runCalls_preserves_disabled (os : List ApiOutcome) :
    ∀ s : AIState, s.ai_enabled = false → (runCalls s os).ai_enabled = false := by
  induction os with
  | nil => intro s h; exact h
  | cons o os' ih =>
    intro s h
    exact ih _ (call_gemini_preserves_disabled s o h)

theorem lookupFS_writeFS_self (fs : WebFS) (n : Str) (c : Str) :
    lookupFS (writeFS fs n c) n = some (.file c) := by
  induction fs with
  | nil => simp [writeFS, lookupFS]
  | cons e es ih =>
    by_cases he : e.1 = n
    · simp [writeFS, he, lookupFS]
    · simp only [writeFS, he, if_false]
      simp only [lookupFS, he, if_false]
      exact ih

theorem lookupFS_append_self (fs : WebFS) (n : Str) (e : Entry)
    (h : lookupFS fs n = none) : lookupFS (fs ++ [(n, e)]) n = some e := by
  induction fs with
  | nil => simp [lookupFS]
  | cons f fs' ih =>
    by_cases hf : f.1 = n
    · rw [lookupFS] at h
      rw [if_pos hf] at h
      simp at h
    · rw [lookupFS] at h
      rw [if_neg hf] at h
      rw [List.cons_append, lookupFS, if_neg hf]
      exact ih h

end WebTerminal

theorem indexOf_append_first (ws : List Str) (x : Str) (t : List Str) (h : x ∉ ws) :
    (ws ++ x :: t).indexOf x = ws.length := by
  induction ws with
  | nil => simp [List.indexOf, List.findIdx_cons]
  | cons w ws' ih =>
    have hne : w ≠ x := fun e => h (by simp [e])
    have hih := ih (fun hx => h (by simp [hx]))
    simp only [List.cons_append, List.length_cons, List.indexOf, List.findIdx_cons] at hih ⊢
    rw [show (w == x) = false by simpa using hne]
    simp [hih]

theorem getD_append_two (ws : List Str) (a b d : Str) :
    (ws ++ [a, b]).getD (ws.length + 1) d = b := by
  induction ws with
  | nil => rfl
  | cons w ws' ih =>
    simpa [List.getD_cons_succ] using ih

/-! ## The claims -/

/-- Claim C1: `cmd_cd` to a path that does not exist or is not a directory leaves
`current_directory` and the recorded previous directory unchanged and
reports the not-found error; the previous directory is recorded and the new
directory committed only after the resolved absolute path is confirmed to
exist and be a directory. -/
theorem claim_C1 (os : PythonTerminal.OSModel) (s : PythonTerminal.Session)
    (path : String) :
    (¬ (os.pathExists (PythonTerminal.resolveCd os s path) = true ∧
        os.isdir (PythonTerminal.resolveCd os s path) = true) →
      PythonTerminal.cmd_cd os s path =
        (s, .noSuchDirectory (PythonTerminal.resolveCd os s path))) ∧
    ((PythonTerminal.cmd_cd os s path).1 ≠ s →
      os.pathExists (PythonTerminal.resolveCd os s path) = true ∧
      os.isdir (PythonTerminal.resolveCd os s path) = true ∧
      (PythonTerminal.cmd_cd os s path).1.prev_directory = some s.current_directory ∧
      (PythonTerminal.cmd_cd os s path).1.current_directory =
        PythonTerminal.resolveCd os s path) := by
  constructor
  · intro h
    simp only [PythonTerminal.cmd_cd]
    rw [if_neg h]
  · intro h
    by_cases hc : os.pathExists (PythonTerminal.resolveCd os s path) = true ∧
        os.isdir (PythonTerminal.resolveCd os s path) = true
    · refine ⟨hc.1, hc.2, ?_, ?_⟩ <;>
        simp only [PythonTerminal.cmd_cd] <;> rw [if_pos hc]
    · exfalso
      apply h
      simp only [PythonTerminal.cmd_cd]
      rw [if_neg hc]

/-- Witness for C1 at a concrete session and an OS model in which no path
exists: the change-directory command fails and leaves the session intact. -/
theorem claim_C1_witness :
    PythonTerminal.cmd_cd
      { home := "/home/user", isabs := fun _ => true,
        join := fun a b => a ++ "/" ++ b, abspath := id,
        pathExists := fun _ => false, isdir := fun _ => false }
      { current_directory := "/start", prev_directory := none } "/nope" =
      ({ current_directory := "/start", prev_directory := none },
        .noSuchDirectory "/nope") :=
  (claim_C1 _ _ _).1 (by decide)

/-- Counterexample to C2 as stated: a string the remote (Gemini) strategy
can return verbatim — here the service echoing `show me the files` — is
passed back into `execute_command_route` and classified as natural language
again, so a resolved string can be re-classified (and resolution can
recurse without bound). -/
theorem claim_C2_counterexample :
    (WebTerminal.parse_with_gemini { gemini_ok := true, ai_enabled := true }
      (.success (strL "show me the files"))).2 = some (strL "show me the files") ∧
    WebTerminal.execute_command_route (strL "show me the files") =
      WebTerminal.Route.natural := by decide

/-- Claim C2, amended: every command string resolved by the deterministic
fallback strategy is never re-classified as natural language when it
re-enters `execute_command`, so deterministic dispatch recursion terminates
after one re-entry; the guarantee does not extend to the remote strategy. -/
theorem claim_C2 (cmd r : Str)
    (h : WebTerminal.parse_with_fallback_patterns cmd = some r) :
    WebTerminal.execute_command_route r ≠ WebTerminal.Route.natural :=
  WebTerminal.fallback_not_natural cmd r h

/-- Witness for C2: `delete old.txt` resolves to `rm old.txt`, which is not
re-classified as natural language. -/
theorem claim_C2_witness :
    WebTerminal.execute_command_route (strL "rm old.txt") ≠
      WebTerminal.Route.natural :=
  claim_C2 (strL "delete old.txt") (strL "rm old.txt") (by decide)

/-- Claim C3: the deterministic pattern-matching resolver maps the six literal
inputs exactly as the specification lists them. -/
theorem claim_C3 :
    WebTerminal.parse_with_fallback_patterns (strL "delete old.txt") =
      some (strL "rm old.txt") ∧
    WebTerminal.parse_with_fallback_patterns (strL "how many files are here") =
      some (strL "count") ∧
    WebTerminal.parse_with_fallback_patterns (strL "create a file called test.py") =
      some (strL "touch test.py") ∧
    WebTerminal.parse_with_fallback_patterns (strL "make a folder named project") =
      some (strL "mkdir project") ∧
    WebTerminal.parse_with_fallback_patterns (strL "write hello world to greeting.txt") =
      some (strL "echo hello world > greeting.txt") ∧
    WebTerminal.parse_with_fallback_patterns (strL "show me the files") =
      some (strL "ls") := by decide

/-- Counterexample to C4 as stated: the first token is compared
case-sensitively, so `LS please show me` — whose first token matches the
registered `ls` case-insensitively — is classified as natural language. -/
theorem claim_C4_counterexample :
    lowerStr (strL "LS") = strL "ls" ∧
    strL "ls" ∈ WebTerminal.registeredNames ∧
    (splitW (strL "LS please show me")).headD [] = strL "LS" ∧
    WebTerminal.execute_command_route (strL "LS please show me") =
      WebTerminal.Route.natural := by decide

/-- Claim C4, amended: a line whose first token matches a registered built-in
name with a case-SENSITIVE comparison is never classified as natural
language, regardless of the surrounding words; a line whose first token
matches no registered name is classified as natural language exactly when
`looks_like_natural_language` holds (an indicator keyword occurs in the
lowercased line, or the line has more than two words one of which is a
common function word). -/
theorem claim_C4 (line : Str) :
    ((splitW line).headD [] ∈ WebTerminal.registeredNames →
      WebTerminal.execute_command_route line ≠ WebTerminal.Route.natural) ∧
    ((splitW line).headD [] ∉ WebTerminal.registeredNames →
      (WebTerminal.execute_command_route line = WebTerminal.Route.natural ↔
        WebTerminal.looks_like_natural_language line = true)) :=
  ⟨WebTerminal.registered_never_natural line,
   WebTerminal.not_registered_natural_iff line⟩

/-- Witness for C4: `ls please show me` has the registered first token `ls`
and is dispatched as a built-in, not classified as natural language. -/
theorem claim_C4_witness :
    WebTerminal.execute_command_route (strL "ls please show me") ≠
      WebTerminal.Route.natural :=
  (claim_C4 (strL "ls please show me")).1 (by decide)

/-- Counterexample to C5 as stated: the WebTerminal history append (line
315 of streamlit_app.py) has no bound, so after 101 appends the history
holds 101 entries and the first appended command is still present. -/
theorem claim_C5_counterexample :
    (List.foldl WebTerminal.appendHistory []
      (strL "first" :: List.replicate 100 (strL "x"))).length = 101 ∧
    strL "first" ∈ List.foldl WebTerminal.appendHistory []
      (strL "first" :: List.replicate 100 (strL "x")) := by
  rw [WebTerminal.foldl_appendHistory_web _ []]
  constructor
  · simp
  · simp

/-- Claim C5, amended: the PythonTerminal history (index.py lines 104-107) never
exceeds 100 entries and evicts oldest-first: after any 101 non-empty
appends the first appended command is absent (when not re-appended later)
and the 101st is present.  The WebTerminal history is unbounded (see the
counterexample). -/
theorem claim_C5 :
    (∀ cs : List Str,
      (List.foldl PythonTerminal.appendHistory [] cs).length ≤ 100) ∧
    (∀ cs : List Str, cs.length = 101 → (∀ c ∈ cs, trimL c ≠ []) →
      (cs.headD [] ∉ cs.tail →
        cs.headD [] ∉ List.foldl PythonTerminal.appendHistory [] cs) ∧
      cs.getLastD [] ∈ List.foldl PythonTerminal.appendHistory [] cs) := by
  constructor
  · intro cs
    exact PythonTerminal.foldl_appendHistory_length cs [] (by simp)
  · intro cs hlen hne
    rw [PythonTerminal.foldl_appendHistory_101 cs hlen]
    rw [List.drop_one]
    constructor
    · intro h0 hmem
      exact h0 hmem
    · obtain ⟨ds, c, rfl⟩ : ∃ ds c, cs = ds ++ [c] := by
        have hcs : cs ≠ [] := by
          intro hx; rw [hx] at hlen; simp at hlen
        exact ⟨cs.dropLast, cs.getLast hcs, (List.dropLast_append_getLast hcs).symm⟩
      have hds : ds ≠ [] := by
        intro hx
        rw [hx] at hlen
        simp at hlen
      rw [List.getLastD_concat]
      rw [← List.drop_one, List.drop_append_of_le_length]
      · exact List.mem_append_right _ (by simp)
      · rcases ds with _ | ⟨d, ds'⟩
        · exact absurd rfl hds
        · simp

/-- Witness for C5: a concrete run of 101 appends through the
PythonTerminal history; the first command is gone, the last is present. -/
theorem claim_C5_witness :
    (strL "first" ∉ List.foldl PythonTerminal.appendHistory []
      (strL "first" :: List.replicate 100 (strL "x"))) ∧
    (strL "first" :: List.replicate 100 (strL "x")).getLastD [] ∈
      List.foldl PythonTerminal.appendHistory []
        (strL "first" :: List.replicate 100 (strL "x")) := by
  have h := (claim_C5.2 (strL "first" :: List.replicate 100 (strL "x"))
    (by simp) (by decide))
  exact ⟨h.1 (by decide), h.2⟩

/-- Counterexample to C6 as stated: a raised exception (timeout or transport
error) in `call_gemini_api` does NOT disable the remote strategy — after the
exception `ai_enabled` is still true and the next resolution still uses the
remote strategy. -/
theorem claim_C6_counterexample :
    (WebTerminal.call_gemini_api { gemini_ok := true, ai_enabled := true }
      .exception).1.ai_enabled = true ∧
    WebTerminal.strategyUsed
      (WebTerminal.call_gemini_api { gemini_ok := true, ai_enabled := true }
        .exception).1 = .remote := by decide

/-- Claim C6, amended: only a non-success HTTP response disables the remote
strategy; the disabled state is permanent for the rest of the session (no
write ever re-enables it) and a disabled session resolves with the
deterministic strategy; an exception leaves the state — including
`ai_enabled` — completely unchanged. -/
theorem claim_C6 (s : WebTerminal.AIState) (os : List WebTerminal.ApiOutcome) :
    (s.gemini_ok = true →
      (WebTerminal.call_gemini_api s .httpError).1.ai_enabled = false) ∧
    WebTerminal.call_gemini_api s .exception = (s, none) ∧
    (s.ai_enabled = false → (WebTerminal.runCalls s os).ai_enabled = false) ∧
    (s.ai_enabled = false → WebTerminal.strategyUsed s = .deterministic) := by
  refine ⟨WebTerminal.call_gemini_httpError s, WebTerminal.call_gemini_exception s,
    WebTerminal.runCalls_preserves_disabled os s, ?_⟩
  intro h
  simp [WebTerminal.strategyUsed, h]

/-- Witness for C6: a concrete non-success response disables the strategy,
and a disabled session stays disabled across further calls. -/
theorem claim_C6_witness :
    (WebTerminal.call_gemini_api { gemini_ok := true, ai_enabled := true }
      .httpError).1.ai_enabled = false ∧
    (WebTerminal.runCalls { gemini_ok := true, ai_enabled := false }
      [.success (strL "ls"), .exception]).ai_enabled = false :=
  ⟨(claim_C6 { gemini_ok := true, ai_enabled := true } []).1 rfl,
   (claim_C6 { gemini_ok := true, ai_enabled := false }
     [.success (strL "ls"), .exception]).2.2.1 rfl⟩

/-- Claim C7: round-trip of redirect-write and read: `echo ws... > target`
followed by `cat target` returns exactly the space-joined word list, for
every word list without a `>` token and every target not occupied by a
directory. -/
theorem claim_C7 (fs : WebTerminal.WebFS) (ws : List Str) (target : Str)
    (hws : ws ≠ []) (hgt : strL ">" ∉ ws)
    (hdir : ∀ d, WebTerminal.lookupFS fs target ≠ some (.dir d)) :
    (WebTerminal.cmd_echo fs (ws ++ [strL ">", target])).2 = .written target ∧
    WebTerminal.cmd_cat (WebTerminal.cmd_echo fs (ws ++ [strL ">", target])).1
      [target] = [.found (joinSpace ws)] := by
  have hlen : ¬ ((ws ++ [strL ">", target]).length < 3 ∨
      strL ">" ∉ ws ++ [strL ">", target]) := by
    rintro (hlt | hnm)
    · rcases ws with _ | ⟨w, ws'⟩
      · exact absurd rfl hws
      · simp only [List.length_append, List.length_cons] at hlt
        omega
    · exact hnm (List.mem_append_right _ (by simp))
  have hidx : (ws ++ [strL ">", target]).indexOf (strL ">") = ws.length :=
    indexOf_append_first ws (strL ">") [target] hgt
  simp only [WebTerminal.cmd_echo]
  rw [if_neg hlen, hidx, List.take_left ws,
    getD_append_two ws (strL ">") target (strL "output.txt")]
  cases hl : WebTerminal.lookupFS fs target with
  | none =>
    refine ⟨rfl, ?_⟩
    simp only [WebTerminal.cmd_cat, List.map]
    rw [WebTerminal.lookupFS_writeFS_self]
  | some e =>
    cases e with
    | file c =>
      refine ⟨rfl, ?_⟩
      simp only [WebTerminal.cmd_cat, List.map]
      rw [WebTerminal.lookupFS_writeFS_self]
    | dir d => exact absurd hl (hdir d)

/-- Witness for C7: writing `hello world` to `greeting.txt` in an empty
directory and reading it back yields exactly `hello world`. -/
theorem claim_C7_witness :
    (WebTerminal.cmd_echo []
      ([strL "hello", strL "world"] ++ [strL ">", strL "greeting.txt"])).2 =
      .written (strL "greeting.txt") ∧
    WebTerminal.cmd_cat
      (WebTerminal.cmd_echo []
        ([strL "hello", strL "world"] ++ [strL ">", strL "greeting.txt"])).1
      [strL "greeting.txt"] =
      [.found (joinSpace [strL "hello", strL "world"])] :=
  claim_C7 [] [strL "hello", strL "world"] (strL "greeting.txt")
    (by decide) (by decide) (by intro d h; simp [WebTerminal.lookupFS] at h)

/-- Claim C8: `mkdir` is idempotent — when no file occupies the name, calling it
twice succeeds both times without error and the second call changes
nothing; `rmdir` on a non-empty directory reports not-empty (an error kind
distinct from not-found) and leaves the filesystem intact. -/
theorem claim_C8 (fs : WebTerminal.WebFS) (x : Str) :
    ((∀ c, WebTerminal.lookupFS fs x ≠ some (.file c)) →
      ∃ fs₁, WebTerminal.cmd_mkdir fs [x] = (fs₁, [.created x]) ∧
        WebTerminal.cmd_mkdir fs₁ [x] = (fs₁, [.created x])) ∧
    (∀ entries, entries ≠ [] →
      WebTerminal.lookupFS fs x = some (.dir entries) →
      WebTerminal.cmd_rmdir fs [x] = (fs, [.notEmpty x]) ∧
      WebTerminal.RmdirResult.notEmpty x ≠ WebTerminal.RmdirResult.notFound x) := by
  constructor
  · intro hfile
    cases hl : WebTerminal.lookupFS fs x with
    | none =>
      refine ⟨fs ++ [(x, .dir [])], ?_, ?_⟩
      · have hm : WebTerminal.mkdirOne fs x = (fs ++ [(x, .dir [])], .created x) := by
          simp only [WebTerminal.mkdirOne]
          rw [hl]
        simp only [WebTerminal.cmd_mkdir, hm]
      · have hm : WebTerminal.mkdirOne (fs ++ [(x, .dir [])]) x =
            (fs ++ [(x, .dir [])], .created x) := by
          simp only [WebTerminal.mkdirOne]
          rw [WebTerminal.lookupFS_append_self fs x _ hl]
        simp only [WebTerminal.cmd_mkdir, hm]
    | some e =>
      cases e with
      | file c => exact absurd hl (hfile c)
      | dir d =>
        have hm : WebTerminal.mkdirOne fs x = (fs, .created x) := by
          simp only [WebTerminal.mkdirOne]
          rw [hl]
        exact ⟨fs, by simp only [WebTerminal.cmd_mkdir, hm],
          by simp only [WebTerminal.cmd_mkdir, hm]⟩
  · intro entries hne hl
    constructor
    · have hm : WebTerminal.rmdirOne fs x = (fs, .notEmpty x) := by
        simp only [WebTerminal.rmdirOne]
        rw [hl]
        show (if entries ≠ [] then (fs, WebTerminal.RmdirResult.notEmpty x)
          else (WebTerminal.removeFS fs x, WebTerminal.RmdirResult.removed x)) =
          (fs, WebTerminal.RmdirResult.notEmpty x)
        rw [if_pos hne]
      simp only [WebTerminal.cmd_rmdir, hm]
    · simp

/-- Witness for C8: creating `x` twice in an empty directory succeeds both
times, and removing the non-empty directory `x` reports not-empty and
leaves it intact. -/
theorem claim_C8_witness :
    (∃ fs₁, WebTerminal.cmd_mkdir [] [strL "x"] = (fs₁, [.created (strL "x")]) ∧
      WebTerminal.cmd_mkdir fs₁ [strL "x"] = (fs₁, [.created (strL "x")])) ∧
    WebTerminal.cmd_rmdir [(strL "x", WebTerminal.Entry.dir [strL "f"])] [strL "x"] =
      ([(strL "x", WebTerminal.Entry.dir [strL "f"])], [.notEmpty (strL "x")]) :=
  ⟨(claim_C8 [] (strL "x")).1 (by intro c h; simp [WebTerminal.lookupFS] at h),
   (((claim_C8 [(strL "x", WebTerminal.Entry.dir [strL "f"])] (strL "x")).2
     [strL "f"] (by decide) (by decide)).1)⟩

/-- Counterexample to C9 as stated: the WebTerminal `rm` on a directory
does not report `NotFound` — it reports a distinct cannot-remove-directory
error (and leaves the directory intact). -/
theorem claim_C9_counterexample :
    WebTerminal.cmd_rm [(strL "d", WebTerminal.Entry.dir [strL "f"])] [strL "d"] =
      ([(strL "d", WebTerminal.Entry.dir [strL "f"])],
        [.isDirectory (strL "d")]) ∧
    WebTerminal.RmResult.isDirectory (strL "d") ≠
      WebTerminal.RmResult.notFound (strL "d") := by decide

/-- Claim C9, amended: `rm` never removes a directory and leaves the filesystem
unchanged when the target is absent or a directory; the PythonTerminal
reports the same `No such file` error in both cases, while the WebTerminal
reports not-found for an absent target and a distinct
cannot-remove-directory error for a directory target. -/
theorem claim_C9 (fs : WebTerminal.WebFS) (n : Str) :
    (WebTerminal.lookupFS fs n = none →
      PythonTerminal.cmd_rm fs [n] = (fs, [.noSuchFile n]) ∧
      WebTerminal.cmd_rm fs [n] = (fs, [.notFound n])) ∧
    (∀ entries, WebTerminal.lookupFS fs n = some (.dir entries) →
      PythonTerminal.cmd_rm fs [n] = (fs, [.noSuchFile n]) ∧
      WebTerminal.cmd_rm fs [n] = (fs, [.isDirectory n])) := by
  constructor
  · intro hl
    constructor
    · have hm : PythonTerminal.rmOne fs n = (fs, .noSuchFile n) := by
        simp only [PythonTerminal.rmOne]
        rw [hl]
      simp only [PythonTerminal.cmd_rm, hm]
    · have hm : WebTerminal.rmOne fs n = (fs, .notFound n) := by
        simp only [WebTerminal.rmOne]
        rw [hl]
      simp only [WebTerminal.cmd_rm, hm]
  · intro entries hl
    constructor
    · have hm : PythonTerminal.rmOne fs n = (fs, .noSuchFile n) := by
        simp only [PythonTerminal.rmOne]
        rw [hl]
      simp only [PythonTerminal.cmd_rm, hm]
    · have hm : WebTerminal.rmOne fs n = (fs, .isDirectory n) := by
        simp only [WebTerminal.rmOne]
        rw [hl]
      simp only [WebTerminal.cmd_rm, hm]

/-- Witness for C9: removing an absent file and removing a directory, in
both terminals, fail without touching the filesystem. -/
theorem claim_C9_witness :
    (PythonTerminal.cmd_rm [] [strL "a"] = ([], [.noSuchFile (strL "a")]) ∧
      WebTerminal.cmd_rm [] [strL "a"] = ([], [.notFound (strL "a")])) ∧
    (PythonTerminal.cmd_rm [(strL "d", WebTerminal.Entry.dir [])] [strL "d"] =
        ([(strL "d", WebTerminal.Entry.dir [])], [.noSuchFile (strL "d")]) ∧
      WebTerminal.cmd_rm [(strL "d", WebTerminal.Entry.dir [])] [strL "d"] =
        ([(strL "d", WebTerminal.Entry.dir [])], [.isDirectory (strL "d")])) :=
  ⟨(claim_C9 [] (strL "a")).1 (by decide),
   (claim_C9 [(strL "d", WebTerminal.Entry.dir [])] (strL "d")).2 [] (by decide)⟩

/-- Counterexample to C10 as stated: on input `remove folder called \x27\x27`
(a quote-only word) the fallback resolver returns `rmdir ` with an EMPTY
target — the returned string has a single token and no target at all. -/
theorem claim_C10_counterexample :
    WebTerminal.parse_with_fallback_patterns
      (strL "remove folder called \x27\x27") = some (strL "rmdir ") ∧
    splitW (strL "rmdir ") = [strL "rmdir"] := by decide

/-- Claim C10, amended: every string the deterministic fallback resolver returns
has a first whitespace-separated token in the fixed set
{rm, touch, mkdir, rmdir, count, ls, echo}, each of which is a registered
built-in name; targets, however, can be empty when a quote-stripped
extracted word is empty (see the counterexample). -/
theorem claim_C10 (cmd r : Str)
    (h : WebTerminal.parse_with_fallback_patterns cmd = some r) :
    (splitW r).headD [] ∈ fallbackHeads ∧
    ∀ n ∈ fallbackHeads, n ∈ WebTerminal.registeredNames :=
  ⟨WebTerminal.fallback_head cmd r h, by decide⟩

/-- Witness for C10: the resolution of `delete old.txt` starts with `rm`,
a registered name. -/
theorem claim_C10_witness :
    (splitW (strL "rm old.txt")).headD [] ∈ fallbackHeads ∧
    ∀ n ∈ fallbackHeads, n ∈ WebTerminal.registeredNames :=
  claim_C10 (strL "delete old.txt") (strL "rm old.txt") (by decide)
